import Mathlib

/-!
Drone plan of an estate: the simulation of `Repository.GetDronePlan`.

Shallow embedding of `repository/implementations.go` (`CreateEstate`, `GetDronePlan`)
and of `handler/endpoints.go` (`GetEstateIdDronePlan`).

Go's `int` is embedded as `Int`, which is exact as long as no value leaves the range of
a 64-bit integer.  The values the repository stores are bounded by `CreateEstate` (lengths
and widths in `1..50000`) and `AddTree` (heights in `1..30`); `Stored` collects these
ranges.  Within them every charge lies in `1..31` and every running total is a partial sum
of the charges of the run without budget, at most `41 * length * width + 21`, far below
`2^63` (`stored_plot_distance_bound`).  Every theorem that asserts a computed distance or
a coordinate derived from the totals carries `Stored` as a hypothesis.

The two `for` loops of the simulation are embedded as structurally recursive
functions over a fuel that is computed from the loop's own variant; the outcome
`Outcome.outOfFuel` marks an exhausted fuel and `Simulation_total` shows it is never
produced.

The fields `visited` and `charges` of the simulation state are ghost fields: they
record the cells on which the loop body was entered and the calls of `addCost`, and
no branch of the code reads them.
-/

namespace DronePlan

/-! ## Data model -/

/-- Identifier of an estate (`uuid.UUID`), `uuid.Nil` being the zero value. -/
abbrev UUID := Nat

/-- The zero identifier `uuid.Nil`. -/
def uuidNil : UUID := 0

/-- Go `Estate` of `repository/types.go`. -/
structure Estate where
  ID : UUID
  Length : Int
  Width : Int
deriving DecidableEq, Repr

/-- Go `error` values built by `WrapErr` and `WrapErrf`. -/
inductive Err where
  | msg (m : String)
  | wrapped (m : String) (cause : Err)
deriving DecidableEq, Repr

/-- Go `err.Error()`: `fmt.Errorf("%s: %w", msg, err)` prints the cause after the message. -/
def Err.Error : Err → String
  | .msg m => m
  | .wrapped m cause => m ++ ": " ++ cause.Error

/-- Go `WrapErr(msg)`, that is `errors.New(msg)`. -/
def WrapErr (m : String) : Option Err := some (.msg m)

/-- Go `WrapErrf(msg, err)`: `nil` for a `nil` cause, the wrapped cause otherwise. -/
def WrapErrf (m : String) (err : Option Err) : Option Err :=
  match err with
  | none => none
  | some e => some (.wrapped m e)

/-- The `trees` map of `GetDronePlan`, `map[coord]int`, read through its lookup. -/
abbrev TreeMap := Int → Int → Option Int

/-- The empty map `make(map[coord]int)`. -/
def TreeMap.empty : TreeMap := fun _ _ => none

/-- The assignment `trees[coord{X: x, Y: y}] = h`. -/
def TreeMap.insert (m : TreeMap) (x y h : Int) : TreeMap :=
  fun a b => if a = x ∧ b = y then some h else m a b

/-- Kind of a charge, a ghost label of the call site of `addCost`. -/
inductive ChargeKind where
  | adjust
  | advance
  | descend
deriving DecidableEq, Repr

/-- One call of `addCost`: its call site, the position `(x, y)` at the call, the cost. -/
structure Charge where
  kind : ChargeKind
  x : Int
  y : Int
  cost : Int
deriving DecidableEq, Repr

/-- The local variables of the simulation, with the two ghost lists. -/
structure Sim where
  x : Int
  y : Int
  z : Int
  dir : Int
  total : Int
  lastX : Int
  lastY : Int
  visited : List (Int × Int)
  charges : List Charge
deriving DecidableEq, Repr

/-- How a block of the simulation ends: control goes on with the next statement
(`running`), the function returns early (`stopped`), or the fuel of a loop is
exhausted (`outOfFuel`). -/
inductive Outcome where
  | running (s : Sim)
  | stopped (s : Sim)
  | outOfFuel
deriving DecidableEq, Repr

/-- Sequencing of blocks: the next block runs only when control goes on. -/
def Outcome.bind (o : Outcome) (f : Sim → Outcome) : Outcome :=
  match o with
  | .running s => f s
  | .stopped s => .stopped s
  | .outOfFuel => .outOfFuel

/-! ## The simulation of `GetDronePlan` (lines 186-248) -/

/-- The closure `addCost` (lines 190-198); every call site returns at once when it
answers `true`, which is the outcome `stopped`. -/
def addCost (maxDistance : Int) (k : ChargeKind) (c : Int) (s : Sim) : Outcome :=
  let s1 : Sim := { s with total := s.total + c, charges := s.charges ++ [⟨k, s.x, s.y, c⟩] }
  if maxDistance > 0 ∧ s1.total ≥ maxDistance then
    .stopped { s1 with lastX := s1.x, lastY := s1.y, total := maxDistance }
  else
    .running s1

/-- Lines 202-205: the altitude the drone needs over the cell `(x, y)`. -/
def targetAt (trees : TreeMap) (x y : Int) : Int :=
  match trees x y with
  | some h => h + 1
  | none => 1

/-- Lines 207-217: climb or descend to `target`. -/
def adjustAltitude (maxDistance target : Int) (s : Sim) : Outcome :=
  if s.z < target then
    (addCost maxDistance .adjust (target - s.z) s).bind fun s1 => .running { s1 with z := target }
  else if s.z > target then
    (addCost maxDistance .adjust (s.z - target) s).bind fun s1 => .running { s1 with z := target }
  else
    .running s

/-- The inner loop, lines 201-228. -/
def rowLoop (length : Int) (trees : TreeMap) (maxDistance : Int) : Nat → Sim → Outcome
  | 0, _ => .outOfFuel
  | n + 1, s =>
    if (s.dir = 1 ∧ s.x ≤ length) ∨ (s.dir = -1 ∧ s.x ≥ 1) then
      (adjustAltitude maxDistance (targetAt trees s.x s.y)
          { s with visited := s.visited ++ [(s.x, s.y)] }).bind fun s1 =>
        let s2 : Sim := { s1 with lastX := s1.x, lastY := s1.y }
        if (s2.dir = 1 ∧ s2.x < length) ∨ (s2.dir = -1 ∧ s2.x > 1) then
          (addCost maxDistance .advance 10 s2).bind fun s3 =>
            rowLoop length trees maxDistance n { s3 with x := s3.x + s3.dir }
        else
          .running s2
    else
      .running s

/-- Variant of the inner loop: the cells left in the row in the current direction. -/
def rowFuel (length : Int) (s : Sim) : Nat :=
  (if s.dir = 1 then (length + 1 - s.x).toNat else s.x.toNat) + 1

/-- The outer loop, lines 200-239. -/
def sweepLoop (length width : Int) (trees : TreeMap) (maxDistance : Int) : Nat → Sim → Outcome
  | 0, _ => .outOfFuel
  | n + 1, s =>
    if s.y ≤ width then
      (rowLoop length trees maxDistance (rowFuel length s) s).bind fun s1 =>
        if s1.y < width then
          (addCost maxDistance .advance 10 s1).bind fun s2 =>
            sweepLoop length width trees maxDistance n { s2 with y := s2.y + 1, dir := s2.dir * -1 }
        else
          .running s1
    else
      .running s

/-- Variant of the outer loop: the rows left. -/
def sweepFuel (width : Int) (s : Sim) : Nat :=
  (width + 1 - s.y).toNat + 1

/-- The variables at line 187-188, with `total`, `lastX`, `lastY` at their zero values. -/
def initSim : Sim :=
  { x := 1, y := 1, z := 0, dir := 1, total := 0, lastX := 0, lastY := 0,
    visited := [], charges := [] }

/-- Lines 186-248: the two loops, then the final descent. -/
def Simulation (length width : Int) (trees : TreeMap) (maxDistance : Int) : Outcome :=
  (sweepLoop length width trees maxDistance (sweepFuel width initSim) initSim).bind fun s =>
    if s.z > 0 then addCost maxDistance .descend s.z s else .running s

/-- The state in which the simulation returned, on either `return`. -/
def Outcome.final : Outcome → Option Sim
  | .running s => some s
  | .stopped s => some s
  | .outOfFuel => none

/-! ## Storage and `GetDronePlan` -/

/-- Result of `QueryRowContext(...).Scan(...)`. -/
inductive RowQuery (α : Type) where
  | found (a : α)
  | errNoRows
  | failed (e : Err)

/-- What the database answers to the two queries of `GetDronePlan`: the estate row, and
the tree rows `(x, y, h)`, each of which `rows.Scan` may fail to read. -/
structure Db where
  estate : UUID → RowQuery Estate
  trees : UUID → Except Err (List (Except Err (Int × Int × Int)))

/-- Lines 177-184: scan the rows into the map, stopping at the first failing scan. -/
def loadTrees : List (Except Err (Int × Int × Int)) → TreeMap → Except Err TreeMap
  | [], m => .ok m
  | .error e :: _, _ => .error e
  | .ok (x, y, h) :: rest, m => loadTrees rest (m.insert x y h)

/-- The four results of `GetDronePlan`. -/
structure PlanResult where
  total : Int
  lastX : Int
  lastY : Int
  err : Option Err
deriving DecidableEq, Repr

/-- The statement `return total, lastX, lastY, nil`, on which every path of the
simulation ends. -/
def Outcome.result (o : Outcome) : Option PlanResult :=
  o.final.map fun s => ⟨s.total, s.lastX, s.lastY, none⟩

/-- The statement `return 0, 0, 0, err`. -/
def PlanResult.fail (err : Option Err) : PlanResult := ⟨0, 0, 0, err⟩

/-- Go `Repository.GetDronePlan` (lines 148-249); `none` only for an exhausted fuel. -/
def GetDronePlan (db : Db) (estateID : UUID) (maxDistance : Int) : Option PlanResult :=
  if estateID = uuidNil then
    some (.fail (WrapErr "estateID cannot be empty"))
  else if maxDistance < 0 then
    some (.fail (WrapErr "maxDistance must be non-negative"))
  else
    match db.estate estateID with
    | .errNoRows => some (.fail (WrapErr ("estate " ++ toString estateID ++ " not found")))
    | .failed e => some (.fail (WrapErrf "failed to fetch estate: %w" (some e)))
    | .found estate =>
      match db.trees estateID with
      | .error e => some (.fail (WrapErrf "failed to fetch trees: %w" (some e)))
      | .ok rows =>
        match loadTrees rows TreeMap.empty with
        | .error e => some (.fail (WrapErrf "failed to scan tree: %w" (some e)))
        | .ok trees =>
          (Simulation estate.Length estate.Width trees maxDistance).result

/-- Go `Repository.CreateEstate` up to the insertion: the error of the range check. -/
def CreateEstate (length width : Int) : Option Err :=
  if length < 1 ∨ length > 50000 ∨ width < 1 ∨ width > 50000 then
    WrapErr "estate dimensions must be between 1 and 50000"
  else
    none

/-- Go `Repository.AddTree` up to its first query: the error of the argument checks
(lines 52-60). -/
def AddTree (estateID : UUID) (height x y : Int) : Option Err :=
  if estateID = uuidNil then
    WrapErr "estateID cannot be empty"
  else if height < 1 ∨ height > 30 then
    WrapErr "tree height must be between 1 and 30"
  else if x < 1 ∨ y < 1 then
    WrapErr "tree coordinates must be positive"
  else
    none

/-- The ranges of the data the repository stores: `CreateEstate` accepts lengths and widths
in `1..50000`, `AddTree` heights in `1..30`.  Within them every value the simulation
computes stays inside the range of Go's `int`, so that `Int` is exact. -/
def Stored (length width : Int) (trees : TreeMap) : Prop :=
  (1 ≤ length ∧ length ≤ 50000) ∧ (1 ≤ width ∧ width ≤ 50000) ∧
    ∀ x y h, trees x y = some h → 1 ≤ h ∧ h ≤ 30

/-! ## The handler `GetEstateIdDronePlan` -/

/-- Go `generated.DronePlanResponse`: the distance and the optional `Rest` pointer. -/
structure DronePlanResponse where
  Distance : Int
  Rest : Option (Int × Int)
deriving DecidableEq, Repr

/-- Body written by `c.JSON`. -/
inductive Body where
  | error (message : String)
  | plan (r : DronePlanResponse)
deriving DecidableEq, Repr

/-- Status code and body written by `c.JSON`. -/
structure Response where
  status : Nat
  body : Body
deriving DecidableEq, Repr

/-- Go `Server.GetEstateIdDronePlan` (lines 79-114).  `parse` is `uuid.Parse`,
`repo` the method `GetDronePlan` of the server's repository, `distance` the field
`params.Distance`. -/
def GetEstateIdDronePlan (parse : String → Option UUID)
    (repo : UUID → Int → Option PlanResult) (id : String) (distance : Option Int) :
    Option Response :=
  match parse id with
  | none => some ⟨400, .error "invalid estate id"⟩
  | some estateID =>
    let maxDistance : Int := match distance with
      | some d => d
      | none => 0
    match repo estateID maxDistance with
    | none => none
    | some r =>
      match r.err with
      | some e => some ⟨400, .error e.Error⟩
      | none =>
        if maxDistance > 0 ∧ r.total = maxDistance then
          some ⟨200, .plan ⟨r.total, some (r.lastX, r.lastY)⟩⟩
        else
          some ⟨200, .plan ⟨r.total, none⟩⟩

/-! ## The reference sweep -/

/-- Required altitude over a cell: the height of its obstacle plus one, or one when the
map has no obstacle there. -/
def requiredAltitude (trees : TreeMap) (c : Int × Int) : Int :=
  match trees c.1 c.2 with
  | some h => h + 1
  | none => 1

/-- The cells of row `y`: `x` ascending `1..L` on odd rows, descending `L..1` on even rows. -/
def rowCells (L : Nat) (y : Nat) : List (Int × Int) :=
  if y % 2 = 1 then (List.range L).map fun (i : Nat) => ((i : Int) + 1, (y : Int))
  else ((List.range L).map fun (i : Nat) => ((i : Int) + 1, (y : Int))).reverse

/-- The cells of the plot in the order of the boustrophedon sweep, rows `1..W`. -/
def sweepCells (L W : Nat) : List (Int × Int) :=
  ((List.range W).map fun (j : Nat) => rowCells L (j + 1)).flatten

/-- The sum of `|alt(c_i) - alt(c_(i-1))|` along the cells, `z` being the altitude before
the first cell. -/
def climbSum (alt : Int × Int → Int) : Int → List (Int × Int) → Int
  | _, [] => 0
  | z, c :: cs => |alt c - z| + climbSum alt (alt c) cs

/-- The altitude after the cells: the altitude of the last cell, or `z` for no cell. -/
def endAlt (alt : Int × Int → Int) : Int → List (Int × Int) → Int
  | z, [] => z
  | _, c :: cs => endAlt alt (alt c) cs

/-- Reference cost of a sweep over the cells `c_1..c_n` from the ground:
`sum |alt(c_i) - alt(c_(i-1))| + 10 * (n - 1) + alt(c_n)`. -/
def sweepCost (alt : Int × Int → Int) (cells : List (Int × Int)) : Int :=
  climbSum alt 0 cells + 10 * ((cells.length : Int) - 1) +
    (match cells.getLast? with
     | some c => alt c
     | none => 0)

/-- The charge of the altitude adjustment over the cell `c`, reached at the altitude `z`:
`|alt(c) - z|`, and no charge when the altitude is already the required one. -/
def climbCharge (alt : Int × Int → Int) (z : Int) (c : Int × Int) : List Charge :=
  if z = alt c then [] else [⟨.adjust, c.1, c.2, |alt c - z|⟩]

/-- The charges along the cells, in order: over each cell its altitude adjustment, then,
for each cell but the last, the fixed 10 for leaving it. -/
def walk (alt : Int × Int → Int) : Int → List (Int × Int) → List Charge
  | _, [] => []
  | z, [c] => climbCharge alt z c
  | z, c :: d :: cs =>
    climbCharge alt z c ++ ⟨.advance, c.1, c.2, 10⟩ :: walk alt (alt c) (d :: cs)

/-- The reference schedule of a sweep from the ground: the charges along the cells, then
the final descent from the altitude of the last cell. -/
def schedule (alt : Int × Int → Int) (cells : List (Int × Int)) : List Charge :=
  walk alt 0 cells ++
    (match cells.getLast? with
     | some c => if alt c > 0 then [⟨.descend, c.1, c.2, alt c⟩] else []
     | none => [])

/-- A run of `n` cells of row `y` from `(a, y)` in direction `d`. -/
def line (d y : Int) : Int → Nat → List (Int × Int)
  | _, 0 => []
  | a, n + 1 => (a, y) :: line d y (a + d) n

/-- The cells of `m` rows of length `l`, from `(a, y)` in direction `d`, the direction
changing sign at each row. -/
def snake (l : Nat) : Int → Int → Int → Nat → List (Int × Int)
  | _, _, _, 0 => []
  | d, y, a, m + 1 => line d y a l ++ snake l (-d) (y + 1) (a + ((l : Int) - 1) * d) m

/-! ## Charges and budgets -/

/-- Sum of the costs of a list of charges. -/
def sumCost (cs : List Charge) : Int := (cs.map fun e => e.cost).sum

/-- The first charge of the list with which the running total, started at `acc`,
reaches the budget `B`. -/
def firstTrip (B : Int) : Int → List Charge → Option Charge
  | _, [] => none
  | acc, e :: es => if acc + e.cost ≥ B then some e else firstTrip B (acc + e.cost) es

/-- The state `u` comes after `s` in an unbounded run: the ghost lists have grown, by
positive charges that account for the growth of the total. -/
def Ext (s u : Sim) : Prop :=
  ∃ cs vs, u.charges = s.charges ++ cs ∧ u.visited = s.visited ++ vs ∧
    u.total = s.total + sumCost cs ∧ ∀ e ∈ cs, 0 < e.cost

/-- The budget `B` has not been reached in `s`. -/
def Inv (B : Int) (s : Sim) : Prop :=
  s.total = sumCost s.charges ∧ firstTrip B 0 s.charges = none

/-- The budgeted run returned early in `t` while the unbounded run is in `u`. -/
def Cut (B : Int) (t u : Sim) : Prop :=
  t.total = B ∧ (∃ e, firstTrip B 0 u.charges = some e ∧ t.lastX = e.x ∧ t.lastY = e.y) ∧
    t.visited <+: u.visited

/-- The outcome `oB` of a block run with budget `B` from `s` against the outcome `oU` of
the same block run without budget from `s`. -/
def Rel (B : Int) (s : Sim) (oB oU : Outcome) : Prop :=
  ∀ u, oU = .running u → Ext s u ∧ (Inv B s →
    match oB with
    | .running s1 => s1 = u ∧ Inv B u
    | .stopped t => Cut B t u
    | .outOfFuel => False)

/-- The state after the unbounded altitude adjustment. -/
def adjusted (target : Int) (s : Sim) : Sim :=
  { s with
    z := target
    total := s.total + |target - s.z|
    charges := s.charges ++
      (if s.z = target then [] else [⟨.adjust, s.x, s.y, |target - s.z|⟩]) }

/-- What the unbounded run from `s` has done once it has flown over `cells`, `k` advances
included. -/
structure Flown (trees : TreeMap) (s u : Sim) (cells : List (Int × Int)) (k : Int) : Prop where
  z_eq : u.z = endAlt (requiredAltitude trees) s.z cells
  total_eq : u.total = s.total + climbSum (requiredAltitude trees) s.z cells + 10 * k
  last_eq : u.lastX = u.x ∧ u.lastY = u.y
  pos_mem : (u.x, u.y) ∈ cells
  visited_eq : u.visited = s.visited ++ cells
  charges_mem : ∀ e ∈ u.charges, e ∈ s.charges ∨ (e.x, e.y) ∈ cells
  pos_last : cells.getLast? = some (u.x, u.y)
  charges_eq : u.charges = s.charges ++ walk (requiredAltitude trees) s.z cells

/-- Postconditions of a block: `P` where control goes on, `Q` where the function returns
early. -/
def Outcome.Sat (P Q : Sim → Prop) : Outcome → Prop
  | .running s => P s
  | .stopped t => Q t
  | .outOfFuel => True

/-- The drone is over the cell it entered last. -/
def AtCell (s : Sim) : Prop := s.visited.getLast? = some (s.x, s.y)

/-- The state of an early return: the coordinate recorded for the result is the position
of the drone, which is over the cell it entered last. -/
def Halted (t : Sim) : Prop := t.lastX = t.x ∧ t.lastY = t.y ∧ AtCell t

/-- The distance `total` in the result of the simulation. -/
def distance (length width : Int) (trees : TreeMap) (maxDistance : Int) : Option Int :=
  (Simulation length width trees maxDistance).final.map fun s => s.total

/-- The coordinate `(lastX, lastY)` in the result of the simulation. -/
def resume (length width : Int) (trees : TreeMap) (maxDistance : Int) : Option (Int × Int) :=
  (Simulation length width trees maxDistance).final.map fun s => (s.lastX, s.lastY)

/-- The charges of the run without budget, in the order in which they are made. -/
def unboundedCharges (length width : Int) (trees : TreeMap) : List Charge :=
  match (Simulation length width trees 0).final with
  | some s => s.charges
  | none => []

/-- The cells the run enters, in the order in which it enters them. -/
def visitedCells (length width : Int) (trees : TreeMap) (maxDistance : Int) :
    List (Int × Int) :=
  match (Simulation length width trees maxDistance).final with
  | some s => s.visited
  | none => []

/-! # Theorems -/

/-! ### Lists of charges -/

@[simp] theorem sumCost_nil : sumCost [] = 0 := rfl

@[simp] theorem sumCost_cons (e : Charge) (cs : List Charge) :
    sumCost (e :: cs) = e.cost + sumCost cs := by
  simp [sumCost]

@[simp] theorem sumCost_append (as bs : List Charge) :
    sumCost (as ++ bs) = sumCost as + sumCost bs := by
  simp [sumCost]

theorem firstTrip_append (B : Int) (as bs : List Charge) (acc : Int) :
    firstTrip B acc (as ++ bs) =
      match firstTrip B acc as with
      | some e => some e
      | none => firstTrip B (acc + sumCost as) bs := by
  induction as generalizing acc with
  | nil => simp [firstTrip]
  | cons e es ih =>
    rw [List.cons_append]
    simp only [firstTrip]
    split_ifs with h
    · rfl
    · rw [ih]; simp [add_assoc]

theorem firstTrip_none_lt (B : Int) (cs : List Charge) (acc : Int) (hacc : acc < B)
    (h : firstTrip B acc cs = none) : acc + sumCost cs < B := by
  induction cs generalizing acc with
  | nil => simpa using hacc
  | cons e es ih =>
    simp only [firstTrip] at h
    split_ifs at h with h1
    have := ih (acc + e.cost) (by omega) h
    simp only [sumCost_cons]; omega

theorem firstTrip_some_le (B : Int) (cs : List Charge) (acc : Int)
    (hpos : ∀ e ∈ cs, 0 < e.cost) (e : Charge) (h : firstTrip B acc cs = some e) :
    B ≤ acc + sumCost cs := by
  induction cs generalizing acc with
  | nil => simp [firstTrip] at h
  | cons a es ih =>
    have hs : 0 ≤ sumCost es := by
      unfold sumCost
      apply List.sum_nonneg
      intro x hx
      obtain ⟨c, hc, rfl⟩ := List.mem_map.1 hx
      exact le_of_lt (hpos c (List.mem_cons_of_mem _ hc))
    simp only [firstTrip] at h
    simp only [sumCost_cons]
    split_ifs at h with h1
    · omega
    · have := ih (acc + a.cost) (fun c hc => hpos c (List.mem_cons_of_mem _ hc)) h
      omega

theorem firstTrip_mem (B : Int) (cs : List Charge) (acc : Int) (e : Charge)
    (h : firstTrip B acc cs = some e) : e ∈ cs := by
  induction cs generalizing acc with
  | nil => simp [firstTrip] at h
  | cons a es ih =>
    simp only [firstTrip] at h
    split_ifs at h with h1
    · simp at h; simp [h]
    · exact List.mem_cons_of_mem _ (ih _ h)

/-! ### The relation between the budgeted and the unbounded run -/

theorem Ext.refl (s : Sim) : Ext s s := ⟨[], [], by simp, by simp, by simp, by simp⟩

theorem Ext.trans {s t u : Sim} (h1 : Ext s t) (h2 : Ext t u) : Ext s u := by
  obtain ⟨c1, v1, hc1, hv1, ht1, hp1⟩ := h1
  obtain ⟨c2, v2, hc2, hv2, ht2, hp2⟩ := h2
  refine ⟨c1 ++ c2, v1 ++ v2, by simp [hc2, hc1], by simp [hv2, hv1], ?_, ?_⟩
  · rw [ht2, ht1, sumCost_append]; ring
  · intro e he
    rcases List.mem_append.1 he with h | h
    · exact hp1 e h
    · exact hp2 e h

theorem Cut.mono {B : Int} {t u1 u : Sim} (h : Cut B t u1) (hext : Ext u1 u) : Cut B t u := by
  obtain ⟨ht, ⟨e, he, hx, hy⟩, hv⟩ := h
  obtain ⟨cs, vs, hc, hvs, -, -⟩ := hext
  refine ⟨ht, ⟨e, ?_, hx, hy⟩, ?_⟩
  · rw [hc, firstTrip_append, he]
  · rw [hvs]; exact hv.trans (List.prefix_append _ _)

theorem Rel.bind {B : Int} {s : Sim} {oB oU : Outcome} {fB fU : Sim → Outcome}
    (h : Rel B s oB oU) (hf : ∀ s1, Rel B s1 (fB s1) (fU s1)) :
    Rel B s (oB.bind fB) (oU.bind fU) := by
  intro u hu
  cases oU with
  | stopped t => simp [Outcome.bind] at hu
  | outOfFuel => simp [Outcome.bind] at hu
  | running u1 =>
    simp only [Outcome.bind] at hu
    obtain ⟨hext1, h1⟩ := h u1 rfl
    obtain ⟨hext2, h2⟩ := hf u1 u hu
    refine ⟨hext1.trans hext2, fun hinv => ?_⟩
    have h1 := h1 hinv
    cases oB with
    | running s1 =>
      simp only at h1
      obtain ⟨rfl, hinv1⟩ := h1
      simpa [Outcome.bind] using h2 hinv1
    | stopped t =>
      simp only at h1
      simpa [Outcome.bind] using h1.mono hext2
    | outOfFuel => simp at h1

theorem Rel.pre {B : Int} {s : Sim} (s1 : Sim) {oB oU : Outcome} (htot : s1.total = s.total)
    (hch : s1.charges = s.charges) (hv : ∃ vs, s1.visited = s.visited ++ vs)
    (h : Rel B s1 oB oU) : Rel B s oB oU := by
  intro u hu
  obtain ⟨hext, h1⟩ := h u hu
  have hss : Ext s s1 := by
    obtain ⟨vs, hvs⟩ := hv
    exact ⟨[], vs, by simp [hch], hvs, by simp [htot], by simp⟩
  refine ⟨hss.trans hext, fun hinv => h1 ?_⟩
  unfold Inv at *
  rw [htot, hch]; exact hinv

theorem Rel.running (B : Int) (s : Sim) : Rel B s (.running s) (.running s) := by
  intro u hu
  simp only [Outcome.running.injEq] at hu
  subst hu
  exact ⟨Ext.refl _, fun hinv => ⟨rfl, hinv⟩⟩

theorem Rel.addCost {B : Int} (hB : 0 < B) (k : ChargeKind) {c : Int} (hc : 0 < c) (s : Sim) :
    Rel B s (addCost B k c s) (addCost 0 k c s) := by
  intro u hu
  simp only [DronePlan.addCost, gt_iff_lt, lt_self_iff_false, false_and, if_false,
    Outcome.running.injEq] at hu
  subst hu
  refine ⟨⟨[⟨k, s.x, s.y, c⟩], [], rfl, by simp, by simp, by simpa using hc⟩, fun hinv => ?_⟩
  obtain ⟨htot, htrip⟩ := hinv
  simp only [DronePlan.addCost, gt_iff_lt, hB, true_and, ge_iff_le]
  split_ifs with h
  · refine ⟨rfl, ⟨⟨k, s.x, s.y, c⟩, ?_, rfl, rfl⟩, List.prefix_refl _⟩
    simp only [firstTrip_append, htrip, firstTrip, zero_add]
    rw [← htot]; simp [h]
  · refine ⟨rfl, ?_, ?_⟩
    · simp [htot]
    · simp only [firstTrip_append, htrip, firstTrip, zero_add]
      rw [← htot]; simp [h]

theorem Rel.adjustAltitude {B : Int} (hB : 0 < B) (target : Int) (s : Sim) :
    Rel B s (adjustAltitude B target s) (adjustAltitude 0 target s) := by
  unfold DronePlan.adjustAltitude
  split_ifs with h1 h2
  · exact (Rel.addCost hB _ (by omega) s).bind fun s1 =>
      Rel.pre _ rfl rfl ⟨[], by simp⟩ (Rel.running B _)
  · exact (Rel.addCost hB _ (by omega) s).bind fun s1 =>
      Rel.pre _ rfl rfl ⟨[], by simp⟩ (Rel.running B _)
  · exact Rel.running B s

theorem Rel.rowLoop {B : Int} (hB : 0 < B) (length : Int) (trees : TreeMap) (n : Nat) (s : Sim) :
    Rel B s (rowLoop length trees B n s) (rowLoop length trees 0 n s) := by
  induction n generalizing s with
  | zero => intro u hu; simp [DronePlan.rowLoop] at hu
  | succ n ih =>
    simp only [DronePlan.rowLoop]
    split_ifs with h1
    · refine Rel.pre { s with visited := s.visited ++ [(s.x, s.y)] } rfl rfl ⟨_, rfl⟩ ?_
      refine (Rel.adjustAltitude hB _ _).bind fun s1 => ?_
      refine Rel.pre { s1 with lastX := s1.x, lastY := s1.y } rfl rfl ⟨[], by simp⟩ ?_
      split_ifs with h2
      · refine (Rel.addCost hB _ (by norm_num) _).bind fun s3 => ?_
        exact Rel.pre { s3 with x := s3.x + s3.dir } rfl rfl ⟨[], by simp⟩ (ih _)
      · exact Rel.running B _
    · exact Rel.running B s

theorem Rel.sweepLoop {B : Int} (hB : 0 < B) (length width : Int) (trees : TreeMap) (n : Nat)
    (s : Sim) :
    Rel B s (sweepLoop length width trees B n s) (sweepLoop length width trees 0 n s) := by
  induction n generalizing s with
  | zero => intro u hu; simp [DronePlan.sweepLoop] at hu
  | succ n ih =>
    simp only [DronePlan.sweepLoop]
    split_ifs with h1
    · refine (Rel.rowLoop hB length trees _ s).bind fun s1 => ?_
      split_ifs with h2
      · refine (Rel.addCost hB _ (by norm_num) _).bind fun s2 => ?_
        exact Rel.pre { s2 with y := s2.y + 1, dir := s2.dir * -1 } rfl rfl
          ⟨[], by simp⟩ (ih _)
      · exact Rel.running B _
    · exact Rel.running B s

theorem Rel.Simulation {B : Int} (hB : 0 < B) (length width : Int) (trees : TreeMap) :
    Rel B initSim (Simulation length width trees B) (Simulation length width trees 0) := by
  unfold DronePlan.Simulation
  refine (Rel.sweepLoop hB length width trees _ _).bind fun s => ?_
  split_ifs with h
  · exact Rel.addCost hB _ h s
  · exact Rel.running B s

/-! ### The unbounded run -/

theorem addCost_zero (k : ChargeKind) (c : Int) (s : Sim) :
    addCost 0 k c s =
      .running { s with total := s.total + c, charges := s.charges ++ [⟨k, s.x, s.y, c⟩] } := by
  simp [addCost]

theorem adjustAltitude_zero (target : Int) (s : Sim) :
    adjustAltitude 0 target s = .running (adjusted target s) := by
  unfold adjustAltitude adjusted
  split_ifs with h1 h2 h3 h4 h5
  · omega
  · simp [addCost_zero, Outcome.bind, abs_of_pos (sub_pos.2 h1)]
  · omega
  · have : |target - s.z| = s.z - target := by rw [abs_sub_comm]; exact abs_of_pos (sub_pos.2 h3)
    simp [addCost_zero, Outcome.bind, this]
  · subst h5; simp
  · omega

theorem rowLoop_total (length : Int) (trees : TreeMap) (n : Nat) (s : Sim)
    (hn : rowFuel length s ≤ n) :
    ∃ u, rowLoop length trees 0 n s = .running u ∧ u.y = s.y := by
  induction n generalizing s with
  | zero => simp [rowFuel] at hn
  | succ n ih =>
    simp only [rowLoop, adjustAltitude_zero, Outcome.bind, addCost_zero]
    split_ifs with h1 h2
    · obtain ⟨u, hu, hy⟩ := ih { (adjusted (targetAt trees s.x s.y)
          { s with visited := s.visited ++ [(s.x, s.y)] }) with
          lastX := s.x, lastY := s.y, total := _, charges := _, x := s.x + s.dir } (by
        simp only [rowFuel, adjusted] at hn h2 ⊢
        rcases h2 with ⟨hd, hx⟩ | ⟨hd, hx⟩
        · simp only [hd, if_true] at hn ⊢; omega
        · have hne : ¬ s.dir = 1 := by omega
          simp only [hne, if_false] at hn ⊢; omega)
      exact ⟨u, hu, hy⟩
    · exact ⟨_, rfl, rfl⟩
    · exact ⟨_, rfl, rfl⟩

theorem sweepLoop_total (length width : Int) (trees : TreeMap) (n : Nat) (s : Sim)
    (hn : sweepFuel width s ≤ n) :
    ∃ u, sweepLoop length width trees 0 n s = .running u := by
  induction n generalizing s with
  | zero => simp [sweepFuel] at hn
  | succ n ih =>
    obtain ⟨s1, hs1, hy⟩ := rowLoop_total length trees (rowFuel length s) s le_rfl
    simp only [sweepLoop, hs1, Outcome.bind, addCost_zero]
    split_ifs with h1 h2
    · apply ih
      simp only [sweepFuel] at hn ⊢
      omega
    · exact ⟨_, rfl⟩
    · exact ⟨_, rfl⟩

theorem Simulation_zero_total (length width : Int) (trees : TreeMap) :
    ∃ u, Simulation length width trees 0 = .running u := by
  obtain ⟨s, hs⟩ := sweepLoop_total length width trees (sweepFuel width initSim) initSim le_rfl
  simp only [Simulation, hs, Outcome.bind, addCost_zero]
  split_ifs
  · exact ⟨_, rfl⟩
  · exact ⟨_, rfl⟩

theorem Inv.init {B : Int} : Inv B initSim := ⟨rfl, rfl⟩

/-! ### Lists of cells -/

theorem line_length (d y a : Int) (n : Nat) : (line d y a n).length = n := by
  induction n generalizing a with
  | zero => rfl
  | succ n ih => simp [line, ih]

theorem line_snoc (d y a : Int) (n : Nat) :
    line d y a (n + 1) = line d y a n ++ [(a + n * d, y)] := by
  induction n generalizing a with
  | zero => simp [line]
  | succ n ih =>
    rw [line, ih (a + d)]
    simp only [line, List.cons_append, List.cons.injEq, true_and, List.append_cancel_left_eq,
      Prod.mk.injEq, and_true]
    push_cast; ring

theorem line_east (y a : Int) (n : Nat) :
    line 1 y a n = (List.range n).map fun (i : Nat) => (a + (i : Int), y) := by
  induction n with
  | zero => rfl
  | succ n ih => rw [line_snoc, ih, List.range_succ]; simp

theorem line_west (y a : Int) (n : Nat) :
    line (-1) y a n = (line 1 y (a - n + 1) n).reverse := by
  induction n generalizing a with
  | zero => rfl
  | succ n ih =>
    rw [line_snoc 1, List.reverse_append, line, ih]
    simp only [List.reverse_cons, List.reverse_nil, List.nil_append, List.singleton_append,
      List.cons.injEq, Prod.mk.injEq, and_true]
    constructor
    · push_cast; ring
    · congr 2; push_cast; ring

theorem climbSum_append (alt : Int × Int → Int) (z : Int) (as bs : List (Int × Int)) :
    climbSum alt z (as ++ bs) = climbSum alt z as + climbSum alt (endAlt alt z as) bs := by
  induction as generalizing z with
  | nil => simp [climbSum, endAlt]
  | cons c cs ih => simp [climbSum, endAlt, ih, add_assoc]

theorem endAlt_append (alt : Int × Int → Int) (z : Int) (as bs : List (Int × Int)) :
    endAlt alt z (as ++ bs) = endAlt alt (endAlt alt z as) bs := by
  induction as generalizing z with
  | nil => simp [endAlt]
  | cons c cs ih => simp [endAlt, ih]

theorem mem_rowCells (L y : Nat) (c : Int × Int) :
    c ∈ rowCells L y ↔ 1 ≤ c.1 ∧ c.1 ≤ L ∧ c.2 = y := by
  have h : c ∈ ((List.range L).map fun (i : Nat) => ((i : Int) + 1, (y : Int))) ↔
      1 ≤ c.1 ∧ c.1 ≤ L ∧ c.2 = y := by
    simp only [List.mem_map, List.mem_range]
    constructor
    · rintro ⟨i, hi, rfl⟩
      simp only [and_true]
      omega
    · rintro ⟨h1, h2, h3⟩
      refine ⟨(c.1 - 1).toNat, by omega, ?_⟩
      apply Prod.ext
      · simp only; omega
      · simp only; omega
  unfold rowCells
  split_ifs
  · exact h
  · rw [List.mem_reverse]; exact h

theorem rowCells_nodup (L y : Nat) : (rowCells L y).Nodup := by
  have h : ((List.range L).map fun (i : Nat) => ((i : Int) + 1, (y : Int))).Nodup := by
    apply List.Nodup.map _ (List.nodup_range L)
    intro i j hij
    simp only [Prod.mk.injEq, and_true] at hij
    omega
  unfold rowCells
  split_ifs
  · exact h
  · exact List.nodup_reverse.2 h

theorem rowCells_length (L y : Nat) : (rowCells L y).length = L := by
  unfold rowCells
  split_ifs <;> simp

theorem sweepCells_length (L W : Nat) : (sweepCells L W).length = L * W := by
  unfold sweepCells
  induction W with
  | zero => simp
  | succ W ih =>
    rw [List.range_succ, List.map_append, List.flatten_append, List.length_append, ih]
    simp [rowCells_length, Nat.mul_succ]

theorem mem_sweepCells (L W : Nat) (c : Int × Int) :
    c ∈ sweepCells L W ↔ (1 ≤ c.1 ∧ c.1 ≤ L) ∧ (1 ≤ c.2 ∧ c.2 ≤ W) := by
  unfold sweepCells
  simp only [List.mem_flatten, List.mem_map, List.mem_range]
  constructor
  · rintro ⟨l, ⟨j, hj, rfl⟩, hc⟩
    rw [mem_rowCells] at hc
    obtain ⟨h1, h2, h3⟩ := hc
    refine ⟨⟨h1, h2⟩, ?_⟩
    rw [h3]; push_cast; omega
  · rintro ⟨⟨h1, h2⟩, h3, h4⟩
    refine ⟨_, ⟨(c.2 - 1).toNat, by omega, rfl⟩, ?_⟩
    rw [mem_rowCells]
    refine ⟨h1, h2, ?_⟩
    push_cast; omega

theorem sweepCells_nodup (L W : Nat) : (sweepCells L W).Nodup := by
  unfold sweepCells
  rw [List.nodup_flatten]
  constructor
  · intro l hl
    obtain ⟨j, -, rfl⟩ := List.mem_map.1 hl
    exact rowCells_nodup L _
  · rw [List.pairwise_map]
    apply (List.nodup_range W).imp
    intro i j hij c hi hj
    rw [mem_rowCells] at hi hj
    have := hi.2.2.symm.trans hj.2.2
    apply hij
    exact_mod_cast (by omega : (i : Int) = j)

theorem walk_append (alt : Int × Int → Int) (z : Int) (as bs : List (Int × Int))
    (p : Int × Int) (hp : as.getLast? = some p) (hbs : bs ≠ []) :
    walk alt z (as ++ bs) =
      walk alt z as ++ ⟨.advance, p.1, p.2, 10⟩ :: walk alt (endAlt alt z as) bs := by
  induction as generalizing z with
  | nil => simp at hp
  | cons c cs ih =>
    cases cs with
    | nil =>
      simp only [List.getLast?_singleton, Option.some.injEq] at hp
      subst hp
      cases bs with
      | nil => exact absurd rfl hbs
      | cons d ds => simp [walk, endAlt]
    | cons d ds =>
      rw [List.getLast?_cons_cons] at hp
      have h := ih (alt c) hp
      rw [List.cons_append] at h
      show walk alt z (c :: d :: (ds ++ bs)) = _
      rw [walk, h]
      simp [walk, endAlt, List.append_assoc]

theorem mem_climbCharge (alt : Int × Int → Int) (z : Int) (c : Int × Int) (e : Charge)
    (he : e ∈ climbCharge alt z c) : e.kind = .adjust ∧ (e.x, e.y) = c := by
  unfold climbCharge at he
  split_ifs at he
  · simp at he
  · simp only [List.mem_singleton] at he
    subst he; exact ⟨rfl, rfl⟩

/-- An advance charge of the walk is made at a cell that is followed by another cell. -/
theorem walk_advance_split (alt : Int × Int → Int) (z : Int) (cells : List (Int × Int))
    (e : Charge) (he : e ∈ walk alt z cells) (hk : e.kind = .advance) :
    ∃ as d bs, cells = as ++ (e.x, e.y) :: d :: bs := by
  induction cells generalizing z with
  | nil => simp [walk] at he
  | cons c cs ih =>
    cases cs with
    | nil =>
      simp only [walk] at he
      have := (mem_climbCharge alt z c e he).1
      rw [hk] at this
      exact absurd this (by decide)
    | cons d ds =>
      simp only [walk, List.mem_append, List.mem_cons] at he
      rcases he with he | he | he
      · have := (mem_climbCharge alt z c e he).1
        rw [hk] at this
        exact absurd this (by decide)
      · subst he
        exact ⟨[], d, ds, rfl⟩
      · obtain ⟨as, d1, bs, h⟩ := ih (alt c) he
        exact ⟨c :: as, d1, bs, by rw [h]; rfl⟩

/-- In a list without duplicates an element splits the list in one way only. -/
theorem nodup_split_unique {α : Type} (as bs r q : List α) (c : α)
    (hn : (as ++ c :: r).Nodup) (h : as ++ c :: r = bs ++ c :: q) : as = bs ∧ r = q := by
  induction as generalizing bs with
  | nil =>
    cases bs with
    | nil => simpa using h
    | cons b bs1 =>
      simp only [List.nil_append, List.cons_append, List.cons.injEq] at h
      obtain ⟨rfl, hr⟩ := h
      simp only [List.nil_append, List.nodup_cons] at hn
      exact absurd (by rw [hr]; simp) hn.1
  | cons a as1 ih =>
    cases bs with
    | nil =>
      simp only [List.nil_append, List.cons_append, List.cons.injEq] at h
      obtain ⟨rfl, -⟩ := h
      simp only [List.cons_append, List.nodup_cons] at hn
      exact absurd (by simp) hn.1
    | cons b bs1 =>
      simp only [List.cons_append, List.cons.injEq] at h
      obtain ⟨rfl, ht⟩ := h
      simp only [List.cons_append, List.nodup_cons] at hn
      obtain ⟨h1, h2⟩ := ih bs1 hn.2 ht
      exact ⟨by rw [h1], h2⟩

/-- A prefix of a list without duplicates that ends with `c` is the part of the list up
to `c`. -/
theorem prefix_last_unique {α : Type} (as r v : List α) (c : α)
    (hn : (as ++ c :: r).Nodup) (hv : v <+: as ++ c :: r) (hl : v.getLast? = some c) :
    v = as ++ [c] := by
  obtain ⟨w, hw⟩ := hv
  obtain ⟨ys, rfl⟩ := List.getLast?_eq_some_iff.1 hl
  have h : as ++ c :: r = ys ++ c :: w := by rw [← hw]; simp
  rw [(nodup_split_unique as ys r w c hn h).1]

/-! ### The unbounded run over a row and over the plot -/

theorem targetAt_eq (trees : TreeMap) (x y : Int) :
    targetAt trees x y = requiredAltitude trees (x, y) := rfl

theorem rowLoop_line (length : Int) (trees : TreeMap) (k : Nat) (n : Nat) (s : Sim)
    (hn : k < n)
    (hs : (s.dir = 1 ∧ s.x + k = length) ∨ (s.dir = -1 ∧ s.x - k = 1)) :
    ∃ u, rowLoop length trees 0 n s = .running u ∧ u.x = s.x + k * s.dir ∧ u.y = s.y ∧
      u.dir = s.dir ∧ Flown trees s u (line s.dir s.y s.x (k + 1)) k := by
  induction k generalizing n s with
  | zero =>
    obtain ⟨n, rfl⟩ : ∃ m, n = m + 1 := ⟨n - 1, by omega⟩
    have h1 : (s.dir = 1 ∧ s.x ≤ length) ∨ (s.dir = -1 ∧ s.x ≥ 1) := by omega
    have h2 : ¬ ((s.dir = 1 ∧ s.x < length) ∨ (s.dir = -1 ∧ s.x > 1)) := by omega
    simp only [rowLoop, adjustAltitude_zero, Outcome.bind, addCost_zero, h1, if_true]
    simp only [adjusted, h2, if_false]
    refine ⟨_, rfl, by simp, rfl, rfl, ?_⟩
    constructor
    · simp [line, endAlt, targetAt_eq]
    · simp [line, climbSum, targetAt_eq]
    · simp
    · simp [line]
    · simp [line]
    · intro e he
      simp only [List.mem_append] at he
      rcases he with he | he
      · exact Or.inl he
      · right
        split_ifs at he with h
        · simp at he
        · simp only [List.mem_singleton] at he
          subst he; simp [line]
    · simp [line]
    · simp [line, walk, climbCharge, targetAt_eq]
  | succ k ih =>
    obtain ⟨n, rfl⟩ : ∃ m, n = m + 1 := ⟨n - 1, by omega⟩
    have h1 : (s.dir = 1 ∧ s.x ≤ length) ∨ (s.dir = -1 ∧ s.x ≥ 1) := by omega
    have h2 : (s.dir = 1 ∧ s.x < length) ∨ (s.dir = -1 ∧ s.x > 1) := by omega
    simp only [rowLoop, adjustAltitude_zero, Outcome.bind, addCost_zero, h1, if_true]
    simp only [adjusted, h2, if_true]
    obtain ⟨u, hu, hx, hy, hd, hf⟩ := ih n
      { x := s.x + s.dir, y := s.y, z := targetAt trees s.x s.y, dir := s.dir,
        total := s.total + |targetAt trees s.x s.y - s.z| + 10, lastX := s.x, lastY := s.y,
        visited := s.visited ++ [(s.x, s.y)],
        charges := (s.charges ++
          if s.z = targetAt trees s.x s.y then []
          else [⟨.adjust, s.x, s.y, |targetAt trees s.x s.y - s.z|⟩]) ++
          [⟨.advance, s.x, s.y, 10⟩] } (by omega) (by
        simp only
        rcases hs with ⟨hd, hx⟩ | ⟨hd, hx⟩
        · left; push_cast at hx; omega
        · right; push_cast at hx; omega)
    refine ⟨u, hu, ?_, hy, hd, ?_⟩
    · rw [hx]; push_cast; ring
    · simp only at hf
      constructor
      · rw [hf.z_eq]; simp [line, endAlt, targetAt_eq]
      · rw [hf.total_eq]; simp only [line, climbSum, targetAt_eq]; push_cast; ring
      · exact hf.last_eq
      · rw [line]; exact List.mem_cons_of_mem _ hf.pos_mem
      · rw [hf.visited_eq]; simp [line]
      · intro e he
        rcases hf.charges_mem e he with h | h
        · simp only [List.mem_append, List.mem_singleton] at h
          rcases h with (h | h) | h
          · exact Or.inl h
          · right
            split_ifs at h with h3
            · simp at h
            · simp only [List.mem_singleton] at h
              subst h; simp [line]
          · right; subst h; simp [line]
        · right; rw [line]; exact List.mem_cons_of_mem _ h
      · have := hf.pos_last
        simp only [line] at this ⊢
        rw [List.getLast?_cons_cons]
        exact this
      · rw [hf.charges_eq]
        simp [walk, climbCharge, targetAt_eq, line, List.append_assoc]

theorem Flown.step {trees : TreeMap} {s s1 u : Sim} {as bs : List (Int × Int)} {k1 k2 : Int}
    (s2 : Sim) (h1 : Flown trees s s1 as k1) (hz : s2.z = s1.z) (ht : s2.total = s1.total + 10)
    (hv : s2.visited = s1.visited)
    (hc : s2.charges = s1.charges ++ [⟨.advance, s1.x, s1.y, 10⟩])
    (h2 : Flown trees s2 u bs k2) : Flown trees s u (as ++ bs) (k1 + 1 + k2) := by
  constructor
  · rw [h2.z_eq, hz, h1.z_eq, endAlt_append]
  · rw [h2.total_eq, ht, hz, h1.total_eq, h1.z_eq, climbSum_append]; ring
  · exact h2.last_eq
  · exact List.mem_append_right _ h2.pos_mem
  · rw [h2.visited_eq, hv, h1.visited_eq, List.append_assoc]
  · intro e he
    rcases h2.charges_mem e he with h | h
    · rw [hc] at h
      simp only [List.mem_append, List.mem_singleton] at h
      rcases h with h | h
      · rcases h1.charges_mem e h with h | h
        · exact Or.inl h
        · exact Or.inr (List.mem_append_left _ h)
      · subst h; exact Or.inr (List.mem_append_left _ h1.pos_mem)
    · exact Or.inr (List.mem_append_right _ h)
  · have hne : bs ≠ [] := by
      intro h; have := h2.pos_last; rw [h] at this; simp at this
    rw [List.getLast?_append_of_ne_nil _ hne]
    exact h2.pos_last
  · have hne : bs ≠ [] := by
      intro h; have := h2.pos_last; rw [h] at this; simp at this
    rw [h2.charges_eq, hc, hz, h1.charges_eq, h1.z_eq,
      walk_append _ _ _ _ (s1.x, s1.y) h1.pos_last hne]
    simp [List.append_assoc]

theorem sweepLoop_snake (l : Nat) (hl : 1 ≤ l) (width : Int) (trees : TreeMap) (m n : Nat)
    (s : Sim) (hn : m < n) (hw : s.y + m = width)
    (hs : (s.dir = 1 ∧ s.x = 1) ∨ (s.dir = -1 ∧ s.x = l)) :
    ∃ u, sweepLoop l width trees 0 n s = .running u ∧
      Flown trees s u (snake l s.dir s.y s.x (m + 1)) ((l : Int) * (m + 1) - 1) := by
  obtain ⟨k, rfl⟩ : ∃ k, l = k + 1 := ⟨l - 1, by omega⟩
  induction m generalizing n s with
  | zero =>
    obtain ⟨n, rfl⟩ : ∃ m, n = m + 1 := ⟨n - 1, by omega⟩
    obtain ⟨s1, hs1, hx, hy, hd, hf⟩ := rowLoop_line ((k + 1 : Nat) : Int) trees k
      (rowFuel ((k + 1 : Nat) : Int) s) s (by
        unfold rowFuel
        rcases hs with ⟨hd, hx⟩ | ⟨hd, hx⟩
        · simp only [hd, if_true]; omega
        · have hne : ¬ s.dir = 1 := by omega
          simp only [hne, if_false]; omega) (by push_cast at hs ⊢; omega)
    have h1 : s.y ≤ width := by omega
    have h2 : ¬ s1.y < width := by omega
    simp only [sweepLoop, hs1, Outcome.bind, h1, h2, if_true, if_false]
    refine ⟨s1, rfl, ?_⟩
    simp only [snake, List.append_nil]
    convert hf using 1
    push_cast; ring
  | succ m ih =>
    obtain ⟨n, rfl⟩ : ∃ m, n = m + 1 := ⟨n - 1, by omega⟩
    obtain ⟨s1, hs1, hx, hy, hd, hf⟩ := rowLoop_line ((k + 1 : Nat) : Int) trees k
      (rowFuel ((k + 1 : Nat) : Int) s) s (by
        unfold rowFuel
        rcases hs with ⟨hd, hx⟩ | ⟨hd, hx⟩
        · simp only [hd, if_true]; omega
        · have hne : ¬ s.dir = 1 := by omega
          simp only [hne, if_false]; omega) (by push_cast at hs ⊢; omega)
    have h1 : s.y ≤ width := by omega
    have h2 : s1.y < width := by push_cast at hw; omega
    simp only [sweepLoop, hs1, Outcome.bind, h1, h2, if_true, addCost_zero]
    obtain ⟨u, hu, hfu⟩ := ih n
      { s1 with total := s1.total + 10, charges := s1.charges ++ [⟨.advance, s1.x, s1.y, 10⟩],
                y := s1.y + 1, dir := s1.dir * -1 } (by omega)
      (by simp only; push_cast at hw; omega)
      (by
        simp only
        rcases hs with ⟨hd1, hx1⟩ | ⟨hd1, hx1⟩
        · right
          exact ⟨by rw [hd, hd1]; norm_num, by rw [hx, hd1, hx1]; push_cast; ring⟩
        · left
          exact ⟨by rw [hd, hd1]; norm_num, by rw [hx, hd1, hx1]; push_cast; ring⟩)
    refine ⟨u, hu, ?_⟩
    simp only at hfu
    have key := Flown.step
      { s1 with total := s1.total + 10,
                charges := s1.charges ++ [⟨.advance, s1.x, s1.y, 10⟩],
                y := s1.y + 1, dir := s1.dir * -1 }
      hf rfl rfl rfl rfl hfu
    rw [snake]
    have e1 : s1.dir * -1 = -s.dir := by rw [hd]; ring
    have e2 : s1.y + 1 = s.y + 1 := by rw [hy]
    have e3 : s1.x = s.x + (((k + 1 : Nat) : Int) - 1) * s.dir := by rw [hx]; push_cast; ring
    rw [e1, e2, e3] at key
    convert key using 1
    push_cast; ring

theorem snake_eq (l : Nat) (m j : Nat) (d a : Int)
    (hj : (j % 2 = 0 ∧ d = 1 ∧ a = 1) ∨ (j % 2 = 1 ∧ d = -1 ∧ a = l)) :
    snake l d ((j : Int) + 1) a m =
      ((List.range m).map fun (i : Nat) => rowCells l (j + i + 1)).flatten := by
  induction m generalizing j d a with
  | zero => rfl
  | succ m ih =>
    rw [snake, List.range_succ_eq_map, List.map_cons, List.flatten_cons, List.map_map]
    have hrow : line d ((j : Int) + 1) a l = rowCells l (j + 0 + 1) := by
      unfold rowCells
      rcases hj with ⟨hj, rfl, rfl⟩ | ⟨hj, rfl, rfl⟩
      · have : (j + 0 + 1) % 2 = 1 := by omega
        rw [if_pos this, line_east]
        apply List.map_congr_left
        intro i _
        simp [add_comm]
      · have : ¬ (j + 0 + 1) % 2 = 1 := by omega
        rw [if_neg this, line_west, line_east]
        congr 1
        apply List.map_congr_left
        intro i _
        simp [add_comm]
    have hrest := ih (j + 1) (-d) (a + ((l : Int) - 1) * d) (by
      rcases hj with ⟨hj, rfl, rfl⟩ | ⟨hj, rfl, rfl⟩
      · right; refine ⟨by omega, rfl, by ring⟩
      · left; refine ⟨by omega, by ring, by ring⟩)
    rw [hrow]
    congr 1
    have e : ((j + 1 : Nat) : Int) + 1 = (j : Int) + 1 + 1 := by push_cast; ring
    rw [e] at hrest
    rw [hrest]
    congr 1
    apply List.map_congr_left
    intro i _
    simp only [Function.comp, Nat.succ_eq_add_one]
    congr 1
    omega

theorem snake_sweepCells (l w : Nat) : snake l 1 1 1 w = sweepCells l w := by
  have h := snake_eq l w 0 1 1 (Or.inl ⟨rfl, rfl, rfl⟩)
  simp only [Nat.cast_zero, zero_add] at h
  exact h

theorem endAlt_eq_getLast (alt : Int × Int → Int) (z : Int) (cells : List (Int × Int)) :
    endAlt alt z cells =
      match cells.getLast? with
      | some c => alt c
      | none => z := by
  induction cells generalizing z with
  | nil => rfl
  | cons c cs ih =>
    rw [endAlt, ih]
    cases cs with
    | nil => rfl
    | cons d ds =>
      rw [List.getLast?_cons_cons]
      cases h : (d :: ds).getLast? with
      | some x => rfl
      | none => simp at h

theorem endAlt_ge (alt : Int × Int → Int) (a : Int) (z : Int) (cells : List (Int × Int))
    (h : ∀ c ∈ cells, a ≤ alt c) (hne : cells ≠ []) : a ≤ endAlt alt z cells := by
  induction cells generalizing z with
  | nil => exact absurd rfl hne
  | cons c cs ih =>
    rw [endAlt]
    cases cs with
    | nil => exact h c (List.mem_singleton.2 rfl)
    | cons d ds =>
      exact ih _ (fun x hx => h x (List.mem_cons_of_mem _ hx)) (List.cons_ne_nil _ _)

theorem climbSum_const (alt : Int × Int → Int) (a : Int) (z : Int) (cells : List (Int × Int))
    (h : ∀ c ∈ cells, alt c = a) (hne : cells ≠ []) :
    climbSum alt z cells = |a - z| ∧ endAlt alt z cells = a := by
  induction cells generalizing z with
  | nil => exact absurd rfl hne
  | cons c cs ih =>
    have hc : alt c = a := h c (List.mem_cons_self _ _)
    rw [climbSum, endAlt, hc]
    cases cs with
    | nil => simp [climbSum, endAlt]
    | cons d ds =>
      obtain ⟨h1, h2⟩ := ih a (fun x hx => h x (List.mem_cons_of_mem _ hx))
        (List.cons_ne_nil _ _)
      rw [h1, h2]; simp

theorem sweepCells_ne_nil (l w : Nat) (hl : 1 ≤ l) (hw : 1 ≤ w) : sweepCells l w ≠ [] := by
  intro h
  have := sweepCells_length l w
  rw [h] at this
  simp only [List.length_nil] at this
  have : 1 ≤ l * w := Nat.one_le_iff_ne_zero.2 (Nat.mul_ne_zero (by omega) (by omega))
  omega

/-- The unbounded run over a plot with positive sides: it completes, having entered the
cells of the sweep in order and charged every climb, every advance and the descent. -/
theorem Simulation_zero (l w : Nat) (hl : 1 ≤ l) (hw : 1 ≤ w) (trees : TreeMap) :
    ∃ u, Simulation l w trees 0 = .running u ∧
      u.total = climbSum (requiredAltitude trees) 0 (sweepCells l w) +
        10 * (((sweepCells l w).length : Int) - 1) +
        max (endAlt (requiredAltitude trees) 0 (sweepCells l w)) 0 ∧
      u.visited = sweepCells l w ∧
      (u.lastX, u.lastY) ∈ sweepCells l w ∧
      (∀ e ∈ u.charges, (e.x, e.y) ∈ sweepCells l w) ∧
      u.charges = schedule (requiredAltitude trees) (sweepCells l w) := by
  obtain ⟨m, rfl⟩ : ∃ m, w = m + 1 := ⟨w - 1, by omega⟩
  obtain ⟨s, hs, hf⟩ := sweepLoop_snake l hl ((m + 1 : Nat) : Int) trees m
    (sweepFuel ((m + 1 : Nat) : Int) initSim) initSim
    (by simp only [sweepFuel, initSim]; omega)
    (by simp only [initSim]; push_cast; ring) (Or.inl ⟨rfl, rfl⟩)
  have hcells : snake l initSim.dir initSim.y initSim.x (m + 1) = sweepCells l (m + 1) :=
    snake_sweepCells l (m + 1)
  rw [hcells] at hf
  have hlen : ((sweepCells l (m + 1)).length : Int) - 1 = (l : Int) * (m + 1) - 1 := by
    rw [sweepCells_length]; push_cast; ring
  have hpos : (s.lastX, s.lastY) ∈ sweepCells l (m + 1) := by
    rw [hf.last_eq.1, hf.last_eq.2]; exact hf.pos_mem
  have hvis : s.visited = sweepCells l (m + 1) := by
    rw [hf.visited_eq]; rfl
  have hch : ∀ e ∈ s.charges, (e.x, e.y) ∈ sweepCells l (m + 1) := by
    intro e he
    rcases hf.charges_mem e he with h | h
    · simp [initSim] at h
    · exact h
  have htot : s.total = climbSum (requiredAltitude trees) 0 (sweepCells l (m + 1)) +
      10 * (((sweepCells l (m + 1)).length : Int) - 1) := by
    rw [hf.total_eq, hlen]; simp [initSim]
  have hz : s.z = endAlt (requiredAltitude trees) 0 (sweepCells l (m + 1)) := hf.z_eq
  have hlast : (sweepCells l (m + 1)).getLast? = some (s.x, s.y) := hf.pos_last
  have hzl : s.z = requiredAltitude trees (s.x, s.y) := by
    rw [hz, endAlt_eq_getLast, hlast]
  have hwalk : s.charges = walk (requiredAltitude trees) 0 (sweepCells l (m + 1)) := by
    rw [hf.charges_eq]; rfl
  simp only [Simulation, hs, Outcome.bind, addCost_zero]
  split_ifs with h
  · refine ⟨_, rfl, ?_, hvis, hpos, ?_, ?_⟩
    · simp only [htot, ← hz, max_eq_left (le_of_lt h)]
    · intro e he
      simp only [List.mem_append, List.mem_singleton] at he
      rcases he with he | he
      · exact hch e he
      · subst he; exact hf.pos_mem
    · have h' : requiredAltitude trees (s.x, s.y) > 0 := by rw [← hzl]; exact h
      simp only [schedule, hlast, ← hwalk, if_pos h', hzl]
  · refine ⟨s, rfl, ?_, hvis, hpos, hch, ?_⟩
    · rw [htot, ← hz, max_eq_right (by omega)]; simp
    · have h' : ¬ requiredAltitude trees (s.x, s.y) > 0 := by rw [← hzl]; exact h
      simp only [schedule, hlast, ← hwalk, if_neg h', List.append_nil]

/-- The charges of a completed unbounded run are positive and sum to its total. -/
theorem unbounded_sane (length width : Int) (trees : TreeMap) (u : Sim)
    (hu : Simulation length width trees 0 = .running u) :
    u.total = sumCost u.charges ∧ ∀ e ∈ u.charges, 0 < e.cost := by
  obtain ⟨⟨cs, vs, hc, -, ht, hp⟩, -⟩ := Rel.Simulation (one_pos : (0 : Int) < 1) length width trees u hu
  simp only [initSim, List.nil_append, zero_add] at hc ht
  rw [hc]
  exact ⟨ht, hp⟩

/-- The run with budget `B > 0` against the completed unbounded run `u`: either no charge
reaches the budget and the run completes in the same state, or it returns at the first
charge that reaches the budget, with total `B` and the position of that charge. -/
theorem Simulation_budget (length width : Int) (trees : TreeMap) (B : Int) (hB : 0 < B)
    (u : Sim) (hu : Simulation length width trees 0 = .running u) :
    (firstTrip B 0 u.charges = none ∧ Simulation length width trees B = .running u ∧
        u.total < B) ∨
    (∃ e t, firstTrip B 0 u.charges = some e ∧ Simulation length width trees B = .stopped t ∧
        t.total = B ∧ t.lastX = e.x ∧ t.lastY = e.y ∧ t.visited <+: u.visited ∧
        B ≤ u.total) := by
  obtain ⟨htot, hpos⟩ := unbounded_sane length width trees u hu
  obtain ⟨-, h⟩ := Rel.Simulation hB length width trees u hu
  have h := h Inv.init
  cases hB' : Simulation length width trees B with
  | running s1 =>
    rw [hB'] at h
    simp only at h
    obtain ⟨rfl, -, htrip⟩ := h
    left
    refine ⟨htrip, rfl, ?_⟩
    have := firstTrip_none_lt B s1.charges 0 hB htrip
    omega
  | stopped t =>
    rw [hB'] at h
    simp only at h
    obtain ⟨ht, ⟨e, he, hx, hy⟩, hv⟩ := h
    right
    refine ⟨e, t, he, rfl, ht, hx, hy, hv, ?_⟩
    have := firstTrip_some_le B u.charges 0 hpos e he
    omega
  | outOfFuel =>
    rw [hB'] at h
    simp at h

/-! ### Where the budgeted run stops -/

theorem Outcome.Sat.andThen {P Q P1 : Sim → Prop} {o : Outcome} {f : Sim → Outcome}
    (h : o.Sat P Q) (hf : ∀ s, P s → (f s).Sat P1 Q) : (o.bind f).Sat P1 Q := by
  cases o with
  | running s => exact hf s h
  | stopped t => exact h
  | outOfFuel => trivial

theorem Outcome.Sat.weaken {P Q P1 : Sim → Prop} {o : Outcome}
    (h : o.Sat P Q) (hp : ∀ s, P s → P1 s) : o.Sat P1 Q := by
  cases o with
  | running s => exact hp s h
  | stopped t => exact h
  | outOfFuel => trivial

theorem addCost_sat (B : Int) (k : ChargeKind) (c : Int) (s : Sim) (h : AtCell s) :
    (addCost B k c s).Sat
      (fun s1 => s1.x = s.x ∧ s1.y = s.y ∧ s1.dir = s.dir ∧ s1.visited = s.visited)
      Halted := by
  unfold addCost
  simp only
  split_ifs
  · exact ⟨rfl, rfl, h⟩
  · exact ⟨rfl, rfl, rfl, rfl⟩

theorem adjustAltitude_sat (B target : Int) (s : Sim) (h : AtCell s) :
    (adjustAltitude B target s).Sat
      (fun s1 => s1.x = s.x ∧ s1.y = s.y ∧ s1.dir = s.dir ∧ s1.visited = s.visited)
      Halted := by
  unfold adjustAltitude
  split_ifs
  · exact (addCost_sat B _ _ s h).andThen fun s1 h1 => h1
  · exact (addCost_sat B _ _ s h).andThen fun s1 h1 => h1
  · exact ⟨rfl, rfl, rfl, rfl⟩

theorem rowLoop_sat (length : Int) (trees : TreeMap) (B : Int) (n : Nat) (s : Sim)
    (hd : s.dir = 1 ∨ s.dir = -1) (hx : 1 ≤ s.x ∧ s.x ≤ length) :
    (rowLoop length trees B n s).Sat
      (fun s1 => AtCell s1 ∧ s1.dir = s.dir ∧ (1 ≤ s1.x ∧ s1.x ≤ length) ∧ s1.y = s.y)
      Halted := by
  induction n generalizing s with
  | zero => trivial
  | succ n ih =>
    have h1 : (s.dir = 1 ∧ s.x ≤ length) ∨ (s.dir = -1 ∧ s.x ≥ 1) := by omega
    simp only [rowLoop, if_pos h1]
    refine (adjustAltitude_sat B _ { s with visited := s.visited ++ [(s.x, s.y)] }
      (by simp [AtCell])).andThen fun s1 hs1 => ?_
    obtain ⟨h1x, h1y, h1d, h1v⟩ := hs1
    simp only at h1x h1y h1d h1v
    have hat : AtCell { s1 with lastX := s1.x, lastY := s1.y } := by
      simp [AtCell, h1v, h1x, h1y]
    split_ifs with h2
    · refine (addCost_sat B _ _ _ hat).andThen fun s3 hs3 => ?_
      obtain ⟨h3x, h3y, h3d, h3v⟩ := hs3
      simp only at h3x h3y h3d h3v
      refine (ih { s3 with x := s3.x + s3.dir } (by simp only; omega)
        (by simp only; omega)).weaken fun s4 hs4 => ?_
      obtain ⟨h4a, h4d, h4x, h4y⟩ := hs4
      simp only at h4d h4y
      exact ⟨h4a, by omega, h4x, by omega⟩
    · exact ⟨hat, h1d, by simp only; omega, h1y⟩

theorem sweepLoop_sat (length width : Int) (trees : TreeMap) (B : Int) (n : Nat) (s : Sim)
    (hd : s.dir = 1 ∨ s.dir = -1) (hx : 1 ≤ s.x ∧ s.x ≤ length) (hy : s.y ≤ width) :
    (sweepLoop length width trees B n s).Sat AtCell Halted := by
  induction n generalizing s with
  | zero => trivial
  | succ n ih =>
    simp only [sweepLoop, if_pos hy]
    refine (rowLoop_sat length trees B _ s hd hx).andThen fun s1 hs1 => ?_
    obtain ⟨h1a, h1d, h1x, h1y⟩ := hs1
    split_ifs with h2
    · refine (addCost_sat B _ _ _ h1a).andThen fun s2 hs2 => ?_
      obtain ⟨h2x, h2y, h2d, h2v⟩ := hs2
      exact ih { s2 with y := s2.y + 1, dir := s2.dir * -1 } (by simp only; omega)
        (by simp only; omega) (by simp only; omega)
    · exact h1a

/-- On a plot with positive sides, whenever the simulation returns early the coordinate it
returns is the position of the drone, over the cell it entered last. -/
theorem Simulation_sat (length width : Int) (hl : 1 ≤ length) (hw : 1 ≤ width)
    (trees : TreeMap) (B : Int) :
    (Simulation length width trees B).Sat (fun _ => True) Halted := by
  unfold Simulation
  refine (sweepLoop_sat length width trees B _ initSim (Or.inl rfl) ⟨le_rfl, hl⟩ hw).andThen
    fun s hs => ?_
  split_ifs
  · exact (addCost_sat B _ _ s hs).weaken fun _ _ => trivial
  · trivial

/-- On a plot with positive sides and for a budget `B > 0`: when a charge `e` of the
reference schedule is the first to bring the running total to `B` or more, the simulation
returns early with the total `B` and the coordinate of `e`, having entered the cells of the
sweep up to that coordinate and no other. -/
theorem Simulation_stop (l w : Nat) (hl : 1 ≤ l) (hw : 1 ≤ w) (trees : TreeMap) (B : Int)
    (hB : 0 < B) (e : Charge)
    (he : firstTrip B 0 (schedule (requiredAltitude trees) (sweepCells l w)) = some e) :
    ∃ t, Simulation l w trees B = .stopped t ∧ t.total = B ∧
      t.lastX = e.x ∧ t.lastY = e.y ∧ t.visited.getLast? = some (e.x, e.y) ∧
      t.visited <+: sweepCells l w := by
  obtain ⟨u, hu, -, hvis, -, -, hch⟩ := Simulation_zero l w hl hw trees
  rw [← hch] at he
  rcases Simulation_budget (l : Int) (w : Int) trees B hB u hu with
    ⟨hnone, -, -⟩ | ⟨e1, t, he1, h, ht, hx, hy, hpre, -⟩
  · rw [hnone] at he; exact absurd he (by simp)
  · rw [he1] at he
    simp only [Option.some.injEq] at he
    subst he
    have hsat := Simulation_sat (l : Int) (w : Int) (by omega) (by omega) trees B
    rw [h] at hsat
    obtain ⟨h1, h2, h3⟩ := hsat
    refine ⟨t, h, ht, hx, hy, ?_, by rw [← hvis]; exact hpre⟩
    rw [← hx, ← hy, h1, h2]
    exact h3

/-- The simulation returns for every plot, every map and every budget `B >= 0`: the
fuel of the loops is never exhausted. -/
theorem Simulation_total (length width : Int) (trees : TreeMap) (B : Int) (hB : 0 ≤ B) :
    ∃ s, (Simulation length width trees B).final = some s := by
  obtain ⟨u, hu⟩ := Simulation_zero_total length width trees
  rcases eq_or_lt_of_le hB with rfl | hB
  · exact ⟨u, by rw [hu]; rfl⟩
  · rcases Simulation_budget length width trees B hB u hu with ⟨-, h, -⟩ | ⟨e, t, -, h, -⟩
    · exact ⟨u, by rw [h]; rfl⟩
    · exact ⟨t, by rw [h]; rfl⟩

/-- The embedding of `GetDronePlan` always returns: the fuel of its loops is never
exhausted, whatever the identifier, the budget and the stored state. -/
theorem GetDronePlan_total (db : Db) (estateID : UUID) (maxDistance : Int) :
    ∃ r, GetDronePlan db estateID maxDistance = some r := by
  unfold GetDronePlan
  split_ifs with h1 h2
  · exact ⟨_, rfl⟩
  · exact ⟨_, rfl⟩
  · split
    · exact ⟨_, rfl⟩
    · exact ⟨_, rfl⟩
    · split
      · exact ⟨_, rfl⟩
      · split
        · exact ⟨_, rfl⟩
        · rename_i estate _ _ _ _ _ trees _
          obtain ⟨s, hs⟩ := Simulation_total estate.Length estate.Width trees maxDistance
            (by omega)
          exact ⟨⟨s.total, s.lastX, s.lastY, none⟩, by simp [Outcome.result, hs]⟩

theorem unboundedCharges_eq (length width : Int) (trees : TreeMap) (u : Sim)
    (hu : Simulation length width trees 0 = .running u) :
    unboundedCharges length width trees = u.charges := by
  simp [unboundedCharges, hu, Outcome.final]

/-- The response carries a resume coordinate exactly when the budget is reached: for a
budget `B > 0` the simulation returns the distance `B` if and only if `B` is at most the
unbounded distance. -/
theorem distance_eq_budget_iff (length width : Int) (trees : TreeMap) (B : Int) (hB : 0 < B) :
    ∃ d0, distance length width trees 0 = some d0 ∧
      (distance length width trees B = some B ↔ B ≤ d0) := by
  obtain ⟨u, hu⟩ := Simulation_zero_total length width trees
  refine ⟨u.total, by simp [distance, hu, Outcome.final], ?_⟩
  rcases Simulation_budget length width trees B hB u hu with
    ⟨-, h, hlt⟩ | ⟨e, t, -, h, ht, -, -, -, hle⟩
  · simp only [distance, h, Outcome.final, Option.map_some', Option.some.injEq]
    omega
  · simp only [distance, h, Outcome.final, Option.map_some', Option.some.injEq, ht, true_iff]
    exact hle

theorem climbSum_le (alt : Int × Int → Int) (z : Int) (cells : List (Int × Int))
    (hz : 0 ≤ z ∧ z ≤ 31) (h : ∀ c ∈ cells, 1 ≤ alt c ∧ alt c ≤ 31) :
    climbSum alt z cells ≤ 31 * cells.length ∧
      (0 ≤ endAlt alt z cells ∧ endAlt alt z cells ≤ 31) := by
  induction cells generalizing z with
  | nil => simpa [climbSum, endAlt] using hz
  | cons c cs ih =>
    have hc := h c (List.mem_cons_self _ _)
    obtain ⟨h1, h2⟩ := ih (alt c) ⟨by omega, hc.2⟩ (fun x hx => h x (List.mem_cons_of_mem _ hx))
    refine ⟨?_, h2⟩
    have habs : |alt c - z| ≤ 31 := abs_le.2 ⟨by omega, by omega⟩
    simp only [climbSum, List.length_cons]
    push_cast
    omega

theorem Stored.altitude {length width : Int} {trees : TreeMap}
    (hs : Stored length width trees) (c : Int × Int) :
    1 ≤ requiredAltitude trees c ∧ requiredAltitude trees c ≤ 31 := by
  unfold requiredAltitude
  cases hc : trees c.1 c.2 with
  | none => simp
  | some h => have := hs.2.2 c.1 c.2 h hc; simp only; omega

theorem Stored.empty (length width : Int) (hl : 1 ≤ length ∧ length ≤ 50000)
    (hw : 1 ≤ width ∧ width ≤ 50000) : Stored length width TreeMap.empty :=
  ⟨hl, hw, fun x y h hxy => by simp [TreeMap.empty] at hxy⟩

theorem Stored.insert {length width : Int} {trees : TreeMap}
    (hs : Stored length width trees) (x y h : Int) (hh : 1 ≤ h ∧ h ≤ 30) :
    Stored length width (trees.insert x y h) := by
  refine ⟨hs.1, hs.2.1, fun a b k hk => ?_⟩
  simp only [TreeMap.insert] at hk
  split_ifs at hk
  · simp only [Option.some.injEq] at hk
    omega
  · exact hs.2.2 a b k hk

/-- The ranges of `Stored` are those the repository accepts: `CreateEstate` makes no error
exactly for sides in `1..50000`, and `AddTree` passes its argument checks only for a
height in `1..30`. -/
theorem stored_ranges_accepted (length width : Int) :
    (CreateEstate length width = none ↔
      (1 ≤ length ∧ length ≤ 50000) ∧ (1 ≤ width ∧ width ≤ 50000)) ∧
    (∀ (estateID : UUID) (height x y : Int),
      AddTree estateID height x y = none → 1 ≤ height ∧ height ≤ 30) := by
  constructor
  · unfold CreateEstate
    split_ifs with h
    · simp only [WrapErr]
      constructor
      · intro h1; simp at h1
      · intro h1; omega
    · simp only [true_iff]; omega
  · intro estateID height x y h
    unfold AddTree at h
    split_ifs at h with h1 h2 h3
    · simp [WrapErr] at h
    · simp [WrapErr] at h
    · simp [WrapErr] at h
    · omega

theorem walk_cost_le (alt : Int × Int → Int) (z : Int) (cells : List (Int × Int))
    (hz : 0 ≤ z ∧ z ≤ 31) (h : ∀ c, 1 ≤ alt c ∧ alt c ≤ 31) :
    ∀ e ∈ walk alt z cells, 1 ≤ e.cost ∧ e.cost ≤ 31 := by
  have hclimb : ∀ (z : Int) (c : Int × Int), 0 ≤ z ∧ z ≤ 31 →
      ∀ e ∈ climbCharge alt z c, 1 ≤ e.cost ∧ e.cost ≤ 31 := by
    intro z c hz e he
    unfold climbCharge at he
    split_ifs at he with h1
    · simp at he
    · simp only [List.mem_singleton] at he
      subst he
      have := h c
      simp only
      constructor
      · have : 0 < |alt c - z| := abs_pos.2 (by omega)
        omega
      · exact abs_le.2 ⟨by omega, by omega⟩
  induction cells generalizing z with
  | nil => intro e he; simp [walk] at he
  | cons c cs ih =>
    cases cs with
    | nil => intro e he; exact hclimb z c hz e (by simpa [walk] using he)
    | cons d ds =>
      intro e he
      simp only [walk, List.mem_append, List.mem_cons] at he
      rcases he with he | he | he
      · exact hclimb z c hz e he
      · subst he; simp
      · exact ih (alt c) ⟨by have := h c; omega, (h c).2⟩ e he

/-- No overflow on stored data: within the ranges of `Stored` the run without budget makes
only charges between 1 and 31, and its distance, the sum of these charges, is at most
`41 * length * width + 21`, far below `2^63`; every running total of a run, with or
without budget, is a partial sum of these charges. -/
theorem stored_plot_distance_bound (length width : Int) (trees : TreeMap)
    (hs : Stored length width trees) :
    ∃ d0, distance length width trees 0 = some d0 ∧ 0 ≤ d0 ∧
      d0 ≤ 41 * (length * width) + 21 ∧ d0 < 2 ^ 63 ∧
      d0 = sumCost (unboundedCharges length width trees) ∧
      ∀ e ∈ unboundedCharges length width trees, 1 ≤ e.cost ∧ e.cost ≤ 31 := by
  obtain ⟨hl, hw, hh⟩ := hs
  have hs : Stored length width trees := ⟨hl, hw, hh⟩
  obtain ⟨l, rfl⟩ := Int.eq_ofNat_of_zero_le (by omega : 0 ≤ length)
  obtain ⟨w, rfl⟩ := Int.eq_ofNat_of_zero_le (by omega : 0 ≤ width)
  obtain ⟨u, hu, htot, -, -, -, hsched⟩ := Simulation_zero l w (by omega) (by omega) trees
  have halt : ∀ c ∈ sweepCells l w,
      1 ≤ requiredAltitude trees c ∧ requiredAltitude trees c ≤ 31 :=
    fun c _ => hs.altitude c
  obtain ⟨h1, h2, h3⟩ := climbSum_le (requiredAltitude trees) 0 (sweepCells l w)
    ⟨le_rfl, by norm_num⟩ halt
  have hpos := (unbounded_sane (l : Int) (w : Int) trees u hu)
  have h0 : 0 ≤ u.total := by
    rw [hpos.1]
    unfold sumCost
    apply List.sum_nonneg
    intro x hx
    obtain ⟨c, hc, rfl⟩ := List.mem_map.1 hx
    exact le_of_lt (hpos.2 c hc)
  rw [sweepCells_length] at h1 htot
  push_cast at h1 htot
  have hbound : u.total ≤ 41 * ((l : Int) * (w : Int)) + 21 := by
    rw [htot, max_eq_left h2]; omega
  have hlw : (l : Int) * (w : Int) ≤ 50000 * 50000 :=
    mul_le_mul hl.2 hw.2 (by omega) (by norm_num)
  have hcharges := unboundedCharges_eq (l : Int) (w : Int) trees u hu
  refine ⟨u.total, by simp [distance, hu, Outcome.final], h0, hbound, ?_, ?_, ?_⟩
  · have : (2 : Int) ^ 63 = 9223372036854775808 := by norm_num
    rw [this]; omega
  · rw [hcharges]; exact hpos.1
  · rw [hcharges, hsched]
    intro e he
    simp only [schedule, List.mem_append] at he
    rcases he with he | he
    · exact walk_cost_le (requiredAltitude trees) 0 (sweepCells l w) ⟨le_rfl, by norm_num⟩
        (fun c => hs.altitude c) e he
    · cases hlast : (sweepCells l w).getLast? with
      | none => rw [hlast] at he; simp at he
      | some c =>
        rw [hlast] at he
        simp only at he
        split_ifs at he with hc
        · simp only [List.mem_singleton] at he
          subst he
          exact hs.altitude c
        · simp at he

/-! ## The claims -/

/-- C1. For a plot and a map within the stored ranges (sides at least one, heights at
least one, no value past what the repository accepts), writing `d(B)` for the distance the
simulation returns with budget `B`: the run without budget returns a distance `d(0)` and,
for every budget `B > 0`, `d(B) = min(B, d(0))`; hence `d(B) = d(0)` for every
`B > d(0)`, and `d(B1) <= d(B2) <= d(0)` for `0 < B1 < B2`. -/
theorem budget_distance_is_min (length width : Int) (trees : TreeMap)
    (hs : Stored length width trees) :
    ∃ d0, distance length width trees 0 = some d0 ∧
      (∀ B, 0 < B → distance length width trees B = some (min B d0)) ∧
      (∀ B, d0 < B → distance length width trees B = some d0) ∧
      (∀ B1 B2, 0 < B1 → B1 < B2 → ∃ d1 d2,
        distance length width trees B1 = some d1 ∧
        distance length width trees B2 = some d2 ∧ d1 ≤ d2 ∧ d2 ≤ d0) := by
  obtain ⟨d0, hd0, h0, -, -, hsum, -⟩ := stored_plot_distance_bound length width trees hs
  obtain ⟨u, hu⟩ := Simulation_zero_total length width trees
  have hd : d0 = u.total := by
    simp only [distance, hu, Outcome.final, Option.map_some', Option.some.injEq] at hd0
    exact hd0.symm
  subst hd
  have key : ∀ B, 0 < B → distance length width trees B = some (min B u.total) := by
    intro B hB
    rcases Simulation_budget length width trees B hB u hu with
      ⟨-, h, hlt⟩ | ⟨e, t, -, h, ht, -, -, -, hle⟩
    · simp [distance, h, Outcome.final, min_eq_right (le_of_lt hlt)]
    · simp [distance, h, Outcome.final, ht, min_eq_left hle]
  refine ⟨u.total, hd0, key, ?_, ?_⟩
  · intro B hB
    rw [key B (by omega), min_eq_right (le_of_lt hB)]
  · intro B1 B2 h1 h2
    refine ⟨_, _, key B1 h1, key B2 (by omega), ?_, min_le_right _ _⟩
    exact min_le_min (le_of_lt h2) le_rfl

/-- C1, at the plot of two cells by one without obstacles and the budget 5. -/
theorem budget_distance_is_min_witness :
    Stored 2 1 TreeMap.empty ∧
    ∃ d0, distance 2 1 TreeMap.empty 0 = some d0 ∧ (0 : Int) < 5 ∧
      distance 2 1 TreeMap.empty 5 = some (min 5 d0) := by
  have hs : Stored 2 1 TreeMap.empty :=
    Stored.empty 2 1 ⟨by decide, by decide⟩ ⟨by decide, by decide⟩
  obtain ⟨d0, h0, h, -⟩ := budget_distance_is_min 2 1 TreeMap.empty hs
  exact ⟨hs, d0, h0, by decide, h 5 (by decide)⟩

/-- C2. At the plot of one cell without obstacles the unbounded distance is 2, the run
with budget 2 completes the whole plan, and the response of the handler for the distance
parameter 2 nevertheless carries the resume coordinate `(1, 1)`. -/
theorem rest_reported_at_exact_budget :
    distance 1 1 TreeMap.empty 0 = some 2 ∧
    unboundedCharges 1 1 TreeMap.empty = [⟨.adjust, 1, 1, 1⟩, ⟨.descend, 1, 1, 1⟩] ∧
    (Simulation 1 1 TreeMap.empty 2).final.map (fun s => s.charges) =
      some [⟨.adjust, 1, 1, 1⟩, ⟨.descend, 1, 1, 1⟩] ∧
    GetEstateIdDronePlan (fun _ => some 1)
        (GetDronePlan ⟨fun _ => .found ⟨1, 1, 1⟩, fun _ => .ok []⟩) "1" (some 2) =
      some ⟨200, .plan ⟨2, some (1, 1)⟩⟩ := by
  decide

/-- C3. For a plot and a map within the stored ranges (sides at least one, heights at
least one, no value past what the repository accepts), the run without budget completes
with the distance `sum |alt(c_i) - alt(c_(i-1))| + 10 * (n - 1) + alt(c_n)` over the cells
`c_1..c_n` of the boustrophedon sweep, it enters exactly these cells in this order, and the
sweep lists every cell of the plot exactly once (`n = length * width`). -/
theorem unbounded_distance_is_sweep_cost (length width : Int) (trees : TreeMap)
    (hs : Stored length width trees) :
    ∃ u, Simulation length width trees 0 = .running u ∧
      u.total = sweepCost (requiredAltitude trees) (sweepCells length.toNat width.toNat) ∧
      u.visited = sweepCells length.toNat width.toNat ∧
      (sweepCells length.toNat width.toNat).Nodup ∧
      ((sweepCells length.toNat width.toNat).length : Int) = length * width ∧
      ∀ x y, (x, y) ∈ sweepCells length.toNat width.toNat ↔
        (1 ≤ x ∧ x ≤ length) ∧ (1 ≤ y ∧ y ≤ width) := by
  have hl := hs.1.1
  have hw := hs.2.1.1
  have halt := fun c => (hs.altitude c).1
  clear hs
  obtain ⟨l, rfl⟩ := Int.eq_ofNat_of_zero_le (by omega : 0 ≤ length)
  obtain ⟨w, rfl⟩ := Int.eq_ofNat_of_zero_le (by omega : 0 ≤ width)
  simp only [Int.toNat_ofNat]
  have hl1 : 1 ≤ l := by omega
  have hw1 : 1 ≤ w := by omega
  obtain ⟨u, hu, htot, hvis, -, -⟩ := Simulation_zero l w hl1 hw1 trees
  refine ⟨u, hu, ?_, hvis, sweepCells_nodup l w, ?_, fun x y => mem_sweepCells l w (x, y)⟩
  · have hge := endAlt_ge (requiredAltitude trees) 1 0 (sweepCells l w) (fun c _ => halt c)
      (sweepCells_ne_nil l w hl1 hw1)
    rw [htot, max_eq_left (by omega), sweepCost, ← endAlt_eq_getLast]
  · rw [sweepCells_length]; push_cast; ring

/-- C3, at the plot of two cells by two with an obstacle of height 5 on `(1, 2)`. -/
theorem unbounded_distance_is_sweep_cost_witness :
    Stored 2 2 (TreeMap.empty.insert 1 2 5) ∧
    ∃ u, Simulation 2 2 (TreeMap.empty.insert 1 2 5) 0 = .running u ∧
      u.total = sweepCost (requiredAltitude (TreeMap.empty.insert 1 2 5))
        (sweepCells (2 : Int).toNat (2 : Int).toNat) ∧
      u.visited = sweepCells (2 : Int).toNat (2 : Int).toNat := by
  have hs : Stored 2 2 (TreeMap.empty.insert 1 2 5) :=
    (Stored.empty 2 2 ⟨by decide, by decide⟩ ⟨by decide, by decide⟩).insert 1 2 5
      ⟨by decide, by decide⟩
  obtain ⟨u, h1, h2, h3, -⟩ :=
    unbounded_distance_is_sweep_cost 2 2 (TreeMap.empty.insert 1 2 5) hs
  exact ⟨hs, u, h1, h2, h3⟩

/-- C4, as stated, fails: on the plot of two cells by one with an obstacle of height 5 on
`(2, 1)` and the budget 13, the charge that first brings the total to the budget is the
altitude adjustment at `(2, 1)`, the second cell of the sweep, and the coordinate returned
is `(2, 1)` itself, not the cell `(1, 1)` visited before it. -/
theorem resume_is_not_previous_cell :
    visitedCells 2 1 (TreeMap.empty.insert 2 1 5) 0 = [(1, 1), (2, 1)] ∧
    firstTrip 13 0 (unboundedCharges 2 1 (TreeMap.empty.insert 2 1 5)) =
      some ⟨.adjust, 2, 1, 5⟩ ∧
    resume 2 1 (TreeMap.empty.insert 2 1 5) 13 = some (2, 1) ∧
    resume 2 1 (TreeMap.empty.insert 2 1 5) 13 ≠ some (1, 1) := by
  decide

/-- C4 (amended). For a plot and a map within the stored ranges and a budget `B > 0`:
whenever a charge of the sweep, of whatever kind `k`, made over the cell `c`, is the first
to bring the running total to `B` or more, the simulation returns the distance `B` and the
coordinate `c`, the cell the drone entered last.  For the altitude adjustment over `c` this
is `c` itself, whose adjustment is unfinished, and never the cell `p` entered immediately
before `c`. -/
theorem resume_is_position_of_tripping_charge (length width : Int) (trees : TreeMap)
    (hs : Stored length width trees) (B : Int) (hB : 0 < B) (k : ChargeKind)
    (c : Int × Int) (cost : Int)
    (he : firstTrip B 0
      (schedule (requiredAltitude trees) (sweepCells length.toNat width.toNat)) =
        some ⟨k, c.1, c.2, cost⟩) :
    distance length width trees B = some B ∧
    resume length width trees B = some c ∧
    (visitedCells length width trees B).getLast? = some c ∧
    visitedCells length width trees B <+: sweepCells length.toNat width.toNat ∧
    ∀ as p, visitedCells length width trees B = as ++ [p, c] →
      resume length width trees B ≠ some p := by
  have hl := hs.1.1
  have hw := hs.2.1.1
  clear hs
  obtain ⟨l, rfl⟩ := Int.eq_ofNat_of_zero_le (by omega : 0 ≤ length)
  obtain ⟨w, rfl⟩ := Int.eq_ofNat_of_zero_le (by omega : 0 ≤ width)
  simp only [Int.toNat_ofNat] at he ⊢
  obtain ⟨t, ht, htot, hx, hy, hlast, hpre⟩ :=
    Simulation_stop l w (by omega) (by omega) trees B hB _ he
  simp only at hx hy hlast
  have hres : resume (l : Int) (w : Int) trees B = some c := by
    simp [resume, ht, Outcome.final, hx, hy]
  have hvis : visitedCells (l : Int) (w : Int) trees B = t.visited := by
    simp [visitedCells, ht, Outcome.final]
  refine ⟨by simp [distance, ht, Outcome.final, htot], hres, by rw [hvis]; exact hlast,
    by rw [hvis]; exact hpre, ?_⟩
  intro as p hv
  rw [hres]
  intro hcp
  simp only [Option.some.injEq] at hcp
  have hnd : t.visited.Nodup := (sweepCells_nodup l w).sublist hpre.sublist
  rw [← hvis, hv, hcp] at hnd
  simp [List.nodup_append] at hnd

/-- C4 (amended), on a westward row and on an eastward row.  On the plot of two cells by
two with an obstacle of height 5 on `(1, 2)` and the budget 33, the altitude adjustment
over `(1, 2)`, entered from `(2, 2)`, is the first charge to reach the budget and the
coordinate returned is `(1, 2)`.  On the plot of two cells by one with an obstacle of height
5 on `(2, 1)` and the budget 13 it is the adjustment over `(2, 1)`, and `(2, 1)` is
returned. -/
theorem resume_is_position_of_tripping_charge_witness :
    (Stored 2 2 (TreeMap.empty.insert 1 2 5) ∧ (0 : Int) < 33 ∧
      firstTrip 33 0 (schedule (requiredAltitude (TreeMap.empty.insert 1 2 5))
        (sweepCells (2 : Int).toNat (2 : Int).toNat)) = some ⟨.adjust, 1, 2, 5⟩ ∧
      visitedCells 2 2 (TreeMap.empty.insert 1 2 5) 33 = [(1, 1), (2, 1), (2, 2), (1, 2)] ∧
      distance 2 2 (TreeMap.empty.insert 1 2 5) 33 = some 33 ∧
      resume 2 2 (TreeMap.empty.insert 1 2 5) 33 = some (1, 2)) ∧
    (Stored 2 1 (TreeMap.empty.insert 2 1 5) ∧ (0 : Int) < 13 ∧
      firstTrip 13 0 (schedule (requiredAltitude (TreeMap.empty.insert 2 1 5))
        (sweepCells (2 : Int).toNat (1 : Int).toNat)) = some ⟨.adjust, 2, 1, 5⟩ ∧
      distance 2 1 (TreeMap.empty.insert 2 1 5) 13 = some 13 ∧
      resume 2 1 (TreeMap.empty.insert 2 1 5) 13 = some (2, 1)) := by
  have hs1 : Stored 2 2 (TreeMap.empty.insert 1 2 5) :=
    (Stored.empty 2 2 ⟨by decide, by decide⟩ ⟨by decide, by decide⟩).insert 1 2 5
      ⟨by decide, by decide⟩
  have hs2 : Stored 2 1 (TreeMap.empty.insert 2 1 5) :=
    (Stored.empty 2 1 ⟨by decide, by decide⟩ ⟨by decide, by decide⟩).insert 2 1 5
      ⟨by decide, by decide⟩
  have he1 : firstTrip 33 0 (schedule (requiredAltitude (TreeMap.empty.insert 1 2 5))
      (sweepCells (2 : Int).toNat (2 : Int).toNat)) = some ⟨.adjust, 1, 2, 5⟩ := by decide
  have he2 : firstTrip 13 0 (schedule (requiredAltitude (TreeMap.empty.insert 2 1 5))
      (sweepCells (2 : Int).toNat (1 : Int).toNat)) = some ⟨.adjust, 2, 1, 5⟩ := by decide
  have h1 := resume_is_position_of_tripping_charge 2 2 (TreeMap.empty.insert 1 2 5) hs1 33
    (by decide) .adjust (1, 2) 5 he1
  have h2 := resume_is_position_of_tripping_charge 2 1 (TreeMap.empty.insert 2 1 5) hs2 13
    (by decide) .adjust (2, 1) 5 he2
  exact ⟨⟨hs1, by decide, he1, by decide, h1.1, h1.2.1⟩, ⟨hs2, by decide, he2, h2.1, h2.2.1⟩⟩

/-- C5. For a plot and a map within the stored ranges and a budget `B > 0`: where the
charge that first brings the running total to `B` or more is the charge of 10 for leaving
the cell `c`, towards the next cell of the row or towards the next row, the simulation
returns the distance `B` and the coordinate `c`; `c` is the cell entered last, and the
destination `d` of the unfinished move, the next cell of the sweep, is not entered and is
not the coordinate returned. -/
theorem advance_trip_resumes_at_finished_cell (length width : Int) (trees : TreeMap)
    (hs : Stored length width trees) (B : Int) (hB : 0 < B) (c : Int × Int)
    (hc : firstTrip B 0
      (schedule (requiredAltitude trees) (sweepCells length.toNat width.toNat)) =
        some ⟨.advance, c.1, c.2, 10⟩) :
    distance length width trees B = some B ∧
    resume length width trees B = some c ∧
    (visitedCells length width trees B).getLast? = some c ∧
    ∃ d rest, sweepCells length.toNat width.toNat =
        visitedCells length width trees B ++ d :: rest ∧
      d ∉ visitedCells length width trees B ∧
      resume length width trees B ≠ some d := by
  have hl := hs.1.1
  have hw := hs.2.1.1
  clear hs
  obtain ⟨l, rfl⟩ := Int.eq_ofNat_of_zero_le (by omega : 0 ≤ length)
  obtain ⟨w, rfl⟩ := Int.eq_ofNat_of_zero_le (by omega : 0 ≤ width)
  simp only [Int.toNat_ofNat] at hc ⊢
  obtain ⟨t, ht, htot, hx, hy, hlast, hpre⟩ :=
    Simulation_stop l w (by omega) (by omega) trees B hB _ hc
  simp only at hx hy hlast
  have hres : resume (l : Int) (w : Int) trees B = some c := by
    simp [resume, ht, Outcome.final, hx, hy]
  have hvis : visitedCells (l : Int) (w : Int) trees B = t.visited := by
    simp [visitedCells, ht, Outcome.final]
  have hmem := firstTrip_mem B _ 0 _ hc
  have hwalk : (⟨.advance, c.1, c.2, 10⟩ : Charge) ∈
      walk (requiredAltitude trees) 0 (sweepCells l w) := by
    simp only [schedule, List.mem_append] at hmem
    rcases hmem with h | h
    · exact h
    · cases hl2 : (sweepCells l w).getLast? with
      | none => rw [hl2] at h; simp at h
      | some q =>
        rw [hl2] at h
        simp only at h
        split_ifs at h
        · simp at h
        · simp at h
  obtain ⟨as, d, bs, hsplit⟩ :=
    walk_advance_split (requiredAltitude trees) 0 (sweepCells l w) _ hwalk rfl
  simp only at hsplit
  have hnd := sweepCells_nodup l w
  rw [hsplit] at hnd hpre
  have hv : t.visited = as ++ [c] := prefix_last_unique as (d :: bs) t.visited c hnd hpre hlast
  have hdc : d ∉ as ++ [c] := by
    intro hd
    rw [List.nodup_append] at hnd
    rcases List.mem_append.1 hd with h | h
    · exact hnd.2.2 h (by simp)
    · simp only [List.mem_singleton] at h
      subst h
      simp at hnd
  rw [hvis, hres]
  refine ⟨by simp [distance, ht, Outcome.final, htot], rfl, hlast, d, bs, ?_, ?_, ?_⟩
  · rw [hsplit, hv]; simp
  · rw [hv]; exact hdc
  · intro h
    simp only [Option.some.injEq] at h
    subst h
    exact hdc (by simp)

/-- C5, on a move within a row and on a move to the next row.  Scenario D: the plot of two
cells by one without obstacles and the budget 5 give the distance 5 and the coordinate
`(1, 1)`.  The plot of one cell by two without obstacles and the budget 5 give the distance
5 and the coordinate `(1, 1)`, not `(1, 2)`. -/
theorem advance_trip_resumes_at_finished_cell_witness :
    (Stored 2 1 TreeMap.empty ∧ (0 : Int) < 5 ∧
      firstTrip 5 0 (schedule (requiredAltitude TreeMap.empty)
        (sweepCells (2 : Int).toNat (1 : Int).toNat)) = some ⟨.advance, 1, 1, 10⟩ ∧
      distance 2 1 TreeMap.empty 5 = some 5 ∧ resume 2 1 TreeMap.empty 5 = some (1, 1) ∧
      visitedCells 2 1 TreeMap.empty 5 = [(1, 1)]) ∧
    (Stored 1 2 TreeMap.empty ∧ (0 : Int) < 5 ∧
      firstTrip 5 0 (schedule (requiredAltitude TreeMap.empty)
        (sweepCells (1 : Int).toNat (2 : Int).toNat)) = some ⟨.advance, 1, 1, 10⟩ ∧
      distance 1 2 TreeMap.empty 5 = some 5 ∧ resume 1 2 TreeMap.empty 5 = some (1, 1) ∧
      visitedCells 1 2 TreeMap.empty 5 = [(1, 1)]) := by
  have hs1 : Stored 2 1 TreeMap.empty :=
    Stored.empty 2 1 ⟨by decide, by decide⟩ ⟨by decide, by decide⟩
  have hs2 : Stored 1 2 TreeMap.empty :=
    Stored.empty 1 2 ⟨by decide, by decide⟩ ⟨by decide, by decide⟩
  have he1 : firstTrip 5 0 (schedule (requiredAltitude TreeMap.empty)
      (sweepCells (2 : Int).toNat (1 : Int).toNat)) = some ⟨.advance, 1, 1, 10⟩ := by decide
  have he2 : firstTrip 5 0 (schedule (requiredAltitude TreeMap.empty)
      (sweepCells (1 : Int).toNat (2 : Int).toNat)) = some ⟨.advance, 1, 1, 10⟩ := by decide
  have h1 := advance_trip_resumes_at_finished_cell 2 1 TreeMap.empty hs1 5 (by decide)
    (1, 1) he1
  have h2 := advance_trip_resumes_at_finished_cell 1 2 TreeMap.empty hs2 5 (by decide)
    (1, 1) he2
  exact ⟨⟨hs1, by decide, he1, h1.1, h1.2.1, by decide⟩,
    ⟨hs2, by decide, he2, h2.1, h2.2.1, by decide⟩⟩

/-- C6, as stated, fails: for a stored plot of length 0 and width 2, `GetDronePlan`
returns the plan `(12, 1, 2)` and no error; for a stored plot of width 0 it returns
`(0, 0, 0)` and no error. -/
theorem nonpositive_plot_not_rejected :
    GetDronePlan ⟨fun _ => .found ⟨1, 0, 2⟩, fun _ => .ok []⟩ 1 0 = some ⟨12, 1, 2, none⟩ ∧
    GetDronePlan ⟨fun _ => .found ⟨1, 3, 0⟩, fun _ => .ok []⟩ 1 0 = some ⟨0, 0, 0, none⟩ := by
  decide

theorem Simulation_no_row (length width : Int) (hw : width ≤ 0) (trees : TreeMap) (B : Int) :
    Simulation length width trees B = .running initSim := by
  have h1 : sweepFuel width initSim = 1 := by simp only [sweepFuel, initSim]; omega
  have h2 : ¬ initSim.y ≤ width := by simp only [initSim]; omega
  have h3 : ¬ initSim.z > 0 := by simp [initSim]
  rw [Simulation, h1, sweepLoop, if_neg h2]
  simp only [Outcome.bind, if_neg h3]

/-- C6 (amended). `GetDronePlan` does not check the dimensions of the plot: for a stored
plot with a non-positive length or width, a non-nil identifier, a budget `B >= 0` and
successful queries it returns a result without error, which is `(0, 0, 0)` when the width
is non-positive.  Such dimensions are refused where the plot is created: `CreateEstate`
fails for every non-positive length or width. -/
theorem nonpositive_plot_unchecked :
    (∀ length width : Int, length ≤ 0 ∨ width ≤ 0 → ∃ e, CreateEstate length width = some e) ∧
    (∀ (db : Db) (estateID : UUID) (B : Int) (estate : Estate)
        (rows : List (Except Err (Int × Int × Int))) (trees : TreeMap),
      estateID ≠ uuidNil → 0 ≤ B → db.estate estateID = .found estate →
      db.trees estateID = .ok rows → loadTrees rows TreeMap.empty = .ok trees →
      estate.Length ≤ 0 ∨ estate.Width ≤ 0 →
      (∃ total lastX lastY,
        GetDronePlan db estateID B = some ⟨total, lastX, lastY, none⟩) ∧
      (estate.Width ≤ 0 → GetDronePlan db estateID B = some ⟨0, 0, 0, none⟩)) := by
  constructor
  · intro length width h
    refine ⟨.msg "estate dimensions must be between 1 and 50000", ?_⟩
    have : length < 1 ∨ length > 50000 ∨ width < 1 ∨ width > 50000 := by omega
    simp [CreateEstate, this, WrapErr]
  · intro db estateID B estate rows trees hid hB he hr hl _
    have hB' : ¬ B < 0 := by omega
    have hrun : GetDronePlan db estateID B =
        (Simulation estate.Length estate.Width trees B).result := by
      simp only [GetDronePlan, hid, hB', if_false, he, hr, hl]
    constructor
    · obtain ⟨s, hs⟩ := Simulation_total estate.Length estate.Width trees B hB
      exact ⟨s.total, s.lastX, s.lastY, by rw [hrun]; simp [Outcome.result, hs]⟩
    · intro hw
      rw [hrun, Simulation_no_row _ _ hw]
      rfl

/-- C6 (amended), at the stored plot of length 3 and width 0 and at the dimensions
`(0, 5)` in `CreateEstate`. -/
theorem nonpositive_plot_unchecked_witness :
    (∃ e, CreateEstate 0 5 = some e) ∧
    GetDronePlan ⟨fun _ => .found ⟨1, 3, 0⟩, fun _ => .ok []⟩ 1 7 = some ⟨0, 0, 0, none⟩ :=
  ⟨nonpositive_plot_unchecked.1 0 5 (Or.inl (by decide)),
    (nonpositive_plot_unchecked.2 ⟨fun _ => .found ⟨1, 3, 0⟩, fun _ => .ok []⟩ 1 7 ⟨1, 3, 0⟩ []
      TreeMap.empty (by decide) (by decide) rfl rfl rfl (Or.inr (by decide))).2 (by decide)⟩

/-- C7. For every budget `maxDistance < 0` and every identifier there is an error with
which `GetDronePlan` returns `(0, 0, 0)` whatever the stored state: the storage is not
consulted and the simulation is not run. -/
theorem negative_budget_rejected (estateID : UUID) (maxDistance : Int)
    (hneg : maxDistance < 0) :
    ∃ e, ∀ db : Db, GetDronePlan db estateID maxDistance = some ⟨0, 0, 0, some e⟩ := by
  by_cases hid : estateID = uuidNil
  · exact ⟨.msg "estateID cannot be empty", fun db => by
      simp [GetDronePlan, hid, PlanResult.fail, WrapErr]⟩
  · exact ⟨.msg "maxDistance must be non-negative", fun db => by
      simp [GetDronePlan, hid, hneg, PlanResult.fail, WrapErr]⟩

/-- C7, at the identifier 1 and the budget -1. -/
theorem negative_budget_rejected_witness :
    (-1 : Int) < 0 ∧
    ∃ e, ∀ db : Db, GetDronePlan db 1 (-1) = some ⟨0, 0, 0, some e⟩ :=
  ⟨by decide, negative_budget_rejected 1 (-1) (by decide)⟩


/-- C8. For every successful result `(total, restX, restY)` of the repository the response
has status 200 and `Distance = total`; `Rest` is `(restX, restY)` when a distance parameter
greater than zero was supplied and `total` equals it, and absent otherwise. -/
theorem response_assembly (parse : String → Option UUID)
    (repo : UUID → Int → Option PlanResult) (id : String) (distance : Option Int)
    (estateID : UUID) (total restX restY : Int) (hp : parse id = some estateID)
    (hr : repo estateID (distance.getD 0) = some ⟨total, restX, restY, none⟩) :
    ∃ rest, GetEstateIdDronePlan parse repo id distance = some ⟨200, .plan ⟨total, rest⟩⟩ ∧
      ((∃ d, distance = some d ∧ 0 < d ∧ total = d) → rest = some (restX, restY)) ∧
      ((¬ ∃ d, distance = some d ∧ 0 < d ∧ total = d) → rest = none) := by
  cases distance with
  | none =>
    simp only [Option.getD_none] at hr
    refine ⟨none, ?_, ?_, fun _ => rfl⟩
    · simp [GetEstateIdDronePlan, hp, hr]
    · rintro ⟨d, hd, -⟩; simp at hd
  | some d =>
    simp only [Option.getD_some] at hr
    by_cases h : d > 0 ∧ total = d
    · refine ⟨some (restX, restY), ?_, fun _ => rfl, ?_⟩
      · simp [GetEstateIdDronePlan, hp, hr, h]
      · intro hn
        exact absurd ⟨d, rfl, h.1, h.2⟩ hn
    · refine ⟨none, ?_, ?_, fun _ => rfl⟩
      · simp only [GetEstateIdDronePlan, hp, hr, h, if_false]
      · rintro ⟨d1, hd, h1, h2⟩
        simp only [Option.some.injEq] at hd
        subst hd
        exact absurd ⟨h1, h2⟩ h

/-- C8, the case of the test: the distance parameter 50 and the repository result
`(50, 3, 2)` give `Distance = 50` and `Rest = (3, 2)`. -/
theorem response_assembly_witness :
    GetEstateIdDronePlan (fun _ => some 7) (fun _ _ => some ⟨50, 3, 2, none⟩) "7" (some 50) =
      some ⟨200, .plan ⟨50, some (3, 2)⟩⟩ := by
  obtain ⟨rest, h, hyes, -⟩ := response_assembly (fun _ => some 7)
    (fun _ _ => some ⟨50, 3, 2, none⟩) "7" (some 50) 7 50 3 2 rfl rfl
  rw [h, hyes ⟨50, rfl, by decide, rfl⟩]

/-- C9. For a plot and a map within the stored ranges (sides at least one, no value past
what the repository accepts) in which every cell has the same required altitude `a >= 1`,
the run without budget returns the distance `2 * a + 10 * (length * width - 1)`, and the
response built from its result for a missing or zero distance parameter carries that
distance and no resume coordinate. -/
theorem level_plot_distance (length width : Int) (trees : TreeMap)
    (hs : Stored length width trees) (a : Int) (ha : 1 ≤ a)
    (hlevel : ∀ x y, 1 ≤ x → x ≤ length → 1 ≤ y → y ≤ width → targetAt trees x y = a) :
    distance length width trees 0 = some (2 * a + 10 * (length * width - 1)) ∧
    ∀ (parse : String → Option UUID) (repo : UUID → Int → Option PlanResult) (id : String)
      (estateID : UUID) (d : Option Int), parse id = some estateID →
      repo estateID 0 = (Simulation length width trees 0).result →
      d = none ∨ d = some 0 →
      GetEstateIdDronePlan parse repo id d =
        some ⟨200, .plan ⟨2 * a + 10 * (length * width - 1), none⟩⟩ := by
  have hl := hs.1.1
  have hw := hs.2.1.1
  clear hs
  obtain ⟨l, rfl⟩ := Int.eq_ofNat_of_zero_le (by omega : 0 ≤ length)
  obtain ⟨w, rfl⟩ := Int.eq_ofNat_of_zero_le (by omega : 0 ≤ width)
  have hl1 : 1 ≤ l := by omega
  have hw1 : 1 ≤ w := by omega
  obtain ⟨u, hu, htot, -, -, -⟩ := Simulation_zero l w hl1 hw1 trees
  have hconst : ∀ c ∈ sweepCells l w, requiredAltitude trees c = a := by
    intro c hc
    obtain ⟨⟨h1, h2⟩, h3, h4⟩ := (mem_sweepCells l w c).1 hc
    exact hlevel c.1 c.2 h1 h2 h3 h4
  obtain ⟨h1, h2⟩ := climbSum_const (requiredAltitude trees) a 0 (sweepCells l w) hconst
    (sweepCells_ne_nil l w hl1 hw1)
  have hval : u.total = 2 * a + 10 * ((l : Int) * (w : Int) - 1) := by
    rw [htot, h1, h2, sweepCells_length, max_eq_left (by omega), sub_zero,
      abs_of_nonneg (by omega)]
    push_cast; ring
  refine ⟨by simp [distance, hu, Outcome.final, hval], ?_⟩
  intro parse repo id estateID d hp hr hd
  rw [hu] at hr
  simp only [Outcome.result, Outcome.final, Option.map_some', hval] at hr
  rcases hd with rfl | rfl
  · simp [GetEstateIdDronePlan, hp, hr]
  · simp [GetEstateIdDronePlan, hp, hr]

/-- C9, scenarios A, B and C: the plot of one cell without obstacles gives 2, the plot of
two cells by one without obstacles gives 12, the plot of one cell with an obstacle of
height 5 gives 12. -/
theorem level_plot_distance_witness :
    distance 1 1 TreeMap.empty 0 = some 2 ∧
    distance 2 1 TreeMap.empty 0 = some 12 ∧
    distance 1 1 (TreeMap.empty.insert 1 1 5) 0 = some 12 :=
  ⟨(level_plot_distance 1 1 TreeMap.empty
      (Stored.empty 1 1 ⟨by decide, by decide⟩ ⟨by decide, by decide⟩) 1 (by decide)
      (fun _ _ _ _ _ _ => rfl)).1,
    (level_plot_distance 2 1 TreeMap.empty
      (Stored.empty 2 1 ⟨by decide, by decide⟩ ⟨by decide, by decide⟩) 1 (by decide)
      (fun _ _ _ _ _ _ => rfl)).1,
    (level_plot_distance 1 1 (TreeMap.empty.insert 1 1 5)
      ((Stored.empty 1 1 ⟨by decide, by decide⟩ ⟨by decide, by decide⟩).insert 1 1 5
        ⟨by decide, by decide⟩) 6
      (by decide) (fun x y h1 h2 h3 h4 => by
        have hx : x = 1 := by omega
        have hy : y = 1 := by omega
        subst hx; subst hy; rfl)).1⟩

/-- C10. For every plot with length and width at least one, every map and every budget
`B >= 0`, the simulation returns, every cell it has entered lies in the plot, and so does
the coordinate `(lastX, lastY)` it returns, on an early stop and on completion alike. -/
theorem sweep_within_bounds (length width : Int) (hl : 1 ≤ length) (hw : 1 ≤ width)
    (trees : TreeMap) (B : Int) (hB : 0 ≤ B) :
    ∃ s, (Simulation length width trees B).final = some s ∧
      (∀ c ∈ s.visited, (1 ≤ c.1 ∧ c.1 ≤ length) ∧ (1 ≤ c.2 ∧ c.2 ≤ width)) ∧
      (1 ≤ s.lastX ∧ s.lastX ≤ length) ∧ (1 ≤ s.lastY ∧ s.lastY ≤ width) := by
  obtain ⟨l, rfl⟩ := Int.eq_ofNat_of_zero_le (by omega : 0 ≤ length)
  obtain ⟨w, rfl⟩ := Int.eq_ofNat_of_zero_le (by omega : 0 ≤ width)
  have hl1 : 1 ≤ l := by omega
  have hw1 : 1 ≤ w := by omega
  obtain ⟨u, hu, -, hvis, hlast, hch, -⟩ := Simulation_zero l w hl1 hw1 trees
  have hu_vis : ∀ c ∈ u.visited, (1 ≤ c.1 ∧ c.1 ≤ (l : Int)) ∧ (1 ≤ c.2 ∧ c.2 ≤ (w : Int)) := by
    intro c hc
    rw [hvis] at hc
    exact (mem_sweepCells l w c).1 hc
  have hu_last := (mem_sweepCells l w _).1 hlast
  rcases eq_or_lt_of_le hB with rfl | hB
  · exact ⟨u, by rw [hu]; rfl, hu_vis, hu_last⟩
  · rcases Simulation_budget (l : Int) (w : Int) trees B hB u hu with
      ⟨-, h, -⟩ | ⟨e, t, he, h, -, hx, hy, hpre, -⟩
    · exact ⟨u, by rw [h]; rfl, hu_vis, hu_last⟩
    · refine ⟨t, by rw [h]; rfl, fun c hc => hu_vis c (hpre.subset hc), ?_⟩
      have hmem := hch e (firstTrip_mem B u.charges 0 e he)
      rw [← hx, ← hy] at hmem
      exact (mem_sweepCells l w _).1 hmem

/-- C10, at the plot of two cells by one without obstacles and the budget 5. -/
theorem sweep_within_bounds_witness :
    ∃ s, (Simulation 2 1 TreeMap.empty 5).final = some s ∧
      (∀ c ∈ s.visited, (1 ≤ c.1 ∧ c.1 ≤ 2) ∧ (1 ≤ c.2 ∧ c.2 ≤ 1)) ∧
      (1 ≤ s.lastX ∧ s.lastX ≤ 2) ∧ (1 ≤ s.lastY ∧ s.lastY ≤ 1) :=
  sweep_within_bounds 2 1 (by decide) (by decide) TreeMap.empty 5 (by decide)


end DronePlan
